import Mathlib

/-!
# GraImpostor: the lobby server of `server.js`

A shallow embedding of the request handlers of `server.js` (`handleApi` and the
helpers `generateCode`, `cleanName`, `lobbySummary`) together with the
properties of the lobby life cycle.

Modelling conventions

* A JavaScript string is the list of its UTF-16 code units, so that `length`,
  `slice` and `padStart` count what JavaScript counts.
* A handler is modelled from the point where the request body has been parsed
  and destructured: the fields of the body are arbitrary JSON values (`JVal`).
* The process-wide `lobbies` map is passed explicitly and returned.
* `randomInt`, `Date.now()` and `process.env.ADMIN_PASSWORD` are inputs.
  `String.prototype.toLowerCase` is an input as well (`Env.toLowerCase`), so
  that the general theorems hold for the full Unicode case mapping; the concrete
  `toLowerCase` below is used at concrete inputs.
-/

namespace GraImpostor

/-! ## JavaScript values -/

/-- A JavaScript string, as its sequence of UTF-16 code units. -/
abbrev JSString := List Nat

/-- The UTF-16 code units of one Unicode scalar value. -/
def utf16Char (c : Char) : List Nat :=
  if c.toNat < 65536 then [c.toNat]
  else [55296 + (c.toNat - 65536) / 1024, 56320 + (c.toNat - 65536) % 1024]

/-- The JavaScript string written as the given literal. -/
def utf16 (s : String) : JSString :=
  (s.toList.map utf16Char).flatten

/-- A value found in a parsed JSON body or in a query parameter.
`num n` is an integer-valued number of magnitude below `10^21` (which
`ToString` prints in plain decimal); `other text` is any remaining value, all of
which are truthy and are not strings (an object, an array, a fractional or a
huge number), given by the text `ToString` yields for it; `unprintable` is
an object or array for which `ToString` raises `TypeError`, such as
`{"toString": 1}`, also truthy and not a string. -/
inductive JVal where
  | undefined
  | null
  | bool (b : Bool)
  | num (n : Int)
  | str (s : JSString)
  | other (text : JSString)
  | unprintable
  deriving DecidableEq, Repr

/-- JavaScript truthiness (`ToBoolean`). -/
def JVal.truthy : JVal → Bool
  | .undefined => false
  | .null => false
  | .bool b => b
  | .num n => decide (n ≠ 0)
  | .str s => decide (s ≠ [])
  | .other _ => true
  | .unprintable => true

/-- Decimal digits of `n`, most significant first, as code units. -/
def toDigitsFuel : Nat → Nat → List Nat → List Nat
  | 0, _, acc => acc
  | fuel + 1, n, acc =>
    if n / 10 = 0 then (48 + n % 10) :: acc
    else toDigitsFuel fuel (n / 10) ((48 + n % 10) :: acc)

/-- The result of `String(n)` for a natural number `n`. -/
def natToString (n : Nat) : JSString :=
  toDigitsFuel (n + 1) n []

/-- The result of `String(n)` for an integer `n`. -/
def intToString (n : Int) : JSString :=
  if n < 0 then 45 :: natToString n.natAbs else natToString n.natAbs

/-- The abstract operation `ToString`; `none` is the `TypeError` it raises. -/
def JVal.toJSString : JVal → Option JSString
  | .undefined => some (utf16 "undefined")
  | .null => some (utf16 "null")
  | .bool true => some (utf16 "true")
  | .bool false => some (utf16 "false")
  | .num n => some (intToString n)
  | .str s => some s
  | .other text => some text
  | .unprintable => none

/-- White space and line terminators, the code units that `trim` and `parseInt`
strip. -/
def isWhiteSpace (c : Nat) : Bool :=
  c = 9 || c = 10 || c = 11 || c = 12 || c = 13 || c = 32 || c = 160 || c = 5760
    || (decide (8192 ≤ c) && decide (c ≤ 8202))
    || c = 8232 || c = 8233 || c = 8239 || c = 8287 || c = 12288 || c = 65279

/-- The method `String.prototype.trim`. -/
def trim (s : JSString) : JSString :=
  ((s.dropWhile isWhiteSpace).reverse.dropWhile isWhiteSpace).reverse

/-- The method `String.prototype.padStart` with a one-unit filler. -/
def padStart (s : JSString) (targetLength : Nat) (fill : Nat) : JSString :=
  List.replicate (targetLength - s.length) fill ++ s

/-- Whether a code unit is a decimal digit. -/
def isDigit (c : Nat) : Bool :=
  decide (48 ≤ c) && decide (c ≤ 57)

/-- The value of a run of decimal digits. -/
def digitsValue (ds : List Nat) : Nat :=
  ds.foldl (fun acc c => 10 * acc + (c - 48)) 0

/-- What `parseInt(text, 10)` reads from a text; `none` is `NaN`. The integer
is the exact mathematical value of the digits (the rounding to a double does
not change how it compares with 3 and 12). -/
def parseIntText (text : JSString) : Option Int :=
  let s := text.dropWhile isWhiteSpace
  let body := match s with
    | 45 :: t => t
    | 43 :: t => t
    | _ => s
  let ds := body.takeWhile isDigit
  if ds = [] then none
  else
    match s with
    | 45 :: _ => some (-(digitsValue ds : Int))
    | _ => some (digitsValue ds : Int)

/-- The call `parseInt(v, 10)`, which first converts `v` with `ToString`: the
outer `none` is the `TypeError` of that conversion, `some none` is `NaN`,
`some (some k)` is the integer `k`. -/
def parseInt (v : JVal) : Option (Option Int) :=
  match v.toJSString with
  | none => none
  | some text => some (parseIntText text)

/-- The lower-case mapping of one code unit, for Basic Latin, the Latin-1
Supplement and U+0130 (capital I with dot above, whose lower case is the two
units U+0069 U+0307); every other unit is kept. -/
def lowerUnit (c : Nat) : List Nat :=
  if 65 ≤ c ∧ c ≤ 90 then [c + 32]
  else if 192 ≤ c ∧ c ≤ 222 ∧ c ≠ 215 then [c + 32]
  else if c = 304 then [105, 775]
  else [c]

/-- The method `String.prototype.toLowerCase`, exact on strings over Basic
Latin, the Latin-1 Supplement, U+0130 and U+0307. -/
def toLowerCase (s : JSString) : JSString :=
  (s.map lowerUnit).flatten

/-- The call `randomInt(min, max)`: the random source supplies `r`, which is
brought into the half-open range from `min` to `max`; every value of the range
is the result for some `r`. -/
def randomInt (r : Nat) (min max : Nat) : Nat :=
  min + r % (max - min)

/-! ## Data model -/

/-- The constant `words`. -/
def words : List JSString :=
  [utf16 "dom", utf16 "chmura", utf16 "kałamarz", utf16 "silnik", utf16 "prąd"]

/-- A player object. -/
structure Player where
  id : Nat
  name : JSString
  isAdmin : Bool
  deriving DecidableEq, Repr

/-- A lobby object; `none` is `null`. -/
structure Lobby where
  code : JSString
  difficulty : JSString
  maxPlayers : Int
  players : List Player
  started : Bool
  impostorId : Option Nat
  word : Option JSString
  createdAt : Nat
  deriving DecidableEq, Repr

/-- The object built by `lobbySummary`. -/
structure Summary where
  code : JSString
  difficulty : JSString
  maxPlayers : Int
  players : List Player
  started : Bool
  filled : Bool
  createdAt : Nat
  deriving DecidableEq, Repr

/-- The map `lobbies`, keyed by strings, in insertion order. -/
abbrev Registry := List (JSString × Lobby)

/-- Lookup of a string key. -/
def Registry.getStr : Registry → JSString → Option Lobby
  | [], _ => none
  | (k, l) :: rest, key => if k = key then some l else Registry.getStr rest key

/-- The call `lobbies.get(key)`; a key that is not a string matches no entry. -/
def Registry.get (lobbies : Registry) (key : JVal) : Option Lobby :=
  match key with
  | .str k => lobbies.getStr k
  | _ => none

/-- The call `lobbies.has(key)`. -/
def Registry.has (lobbies : Registry) (key : JSString) : Bool :=
  (lobbies.getStr key).isSome

/-- The call `lobbies.set(key, lobby)`; also the write-back of a lobby object
that a handler has changed in place. -/
def Registry.set : Registry → JSString → Lobby → Registry
  | [], key, v => [(key, v)]
  | (k, l) :: rest, key, v =>
    if k = key then (k, v) :: rest else (k, l) :: Registry.set rest key v

/-- What the handlers take from the process and the runtime. -/
structure Env where
  ADMIN_PASSWORD : JSString
  toLowerCase : JSString → JSString

/-! ## Helpers of `server.js` -/

/-- The function `generateCode`, on the value `r` of the random source. -/
def generateCode (r : Nat) : JSString :=
  padStart (natToString (randomInt r 0 (10 ^ 8))) 8 48

/-- The function `cleanName`; `none` is the `TypeError` raised when the truthy
argument has no `trim` method. -/
def cleanName (name : JVal) : Option JSString :=
  match (if name.truthy then name else JVal.str []) with
  | .str s => some ((trim s).take 32)
  | _ => none

/-- The function `lobbySummary`. -/
def lobbySummary (lobby : Lobby) : Summary where
  code := lobby.code
  difficulty := lobby.difficulty
  maxPlayers := lobby.maxPlayers
  players := lobby.players.map (fun p => Player.mk p.id p.name p.isAdmin)
  started := lobby.started
  filled := decide ((lobby.players.length : Int) ≥ lobby.maxPlayers)
  createdAt := lobby.createdAt

/-! ## Requests and responses -/

/-- The fields destructured from the body of `POST /api/lobby/create`. -/
structure CreateBody where
  adminPassword : JVal
  adminName : JVal
  maxPlayers : JVal
  difficulty : JVal
  deriving DecidableEq, Repr

/-- The fields destructured from the body of `POST /api/lobby/join`. -/
structure JoinBody where
  code : JVal
  name : JVal
  deriving DecidableEq, Repr

/-- The fields destructured from the body of `POST /api/lobby/start`. -/
structure StartBody where
  code : JVal
  adminPassword : JVal
  deriving DecidableEq, Repr

/-- A request routed by `handleApi`. For `role`, `playerId` is the value of
`Number(url.searchParams.get('playerId'))`: `some n` when it is the integer
`n`, `none` when it is `NaN` or not an integer. For `create`, `draws` are the
values the random source gives to the successive calls of `generateCode` and
`now` is `Date.now()`. For `start`, `r1` and `r2` are the values the random
source gives to the two calls of `randomInt`. -/
inductive Request where
  | health
  | state (code : JVal)
  | role (code : JVal) (playerId : Option Int)
  | create (body : CreateBody) (draws : List Nat) (now : Nat)
  | join (body : JoinBody)
  | start (body : StartBody) (r1 r2 : Nat)
  deriving DecidableEq, Repr

/-- What `sendJson` is called with: `error status msg` is
`sendJson(res, status, { ok: false, error: msg })`, the others are the payloads
sent with status 200. -/
inductive Response where
  | error (status : Nat) (msg : String)
  | health
  | state (lobby : Summary)
  | role (isImpostor : Bool) (word : Option JSString)
  | created (code : JSString) (playerId : Nat) (lobby : Summary)
  | joined (playerId : Nat) (lobby : Summary)
  | started (lobby : Summary)
  deriving DecidableEq, Repr

/-- The HTTP status of a response. -/
def Response.status : Response → Nat
  | .error status _ => status
  | _ => 200

/-! ## The handlers of `handleApi` -/

/-- The route `GET /api/lobby/state`. -/
def apiState (lobbies : Registry) (code : JVal) : Registry × Response :=
  match lobbies.get code with
  | none => (lobbies, .error 404 "Lobby nie istnieje")
  | some lobby => (lobbies, .state (lobbySummary lobby))

/-- The route `GET /api/lobby/role`. -/
def apiRole (lobbies : Registry) (code : JVal) (playerId : Option Int) :
    Registry × Response :=
  match lobbies.get code with
  | none => (lobbies, .error 404 "Lobby nie istnieje")
  | some lobby =>
    if !lobby.started then (lobbies, .error 400 "Gra jeszcze nie wystartowała")
    else
      match lobby.players.find? (fun p => decide (some (p.id : Int) = playerId)) with
      | none => (lobbies, .error 404 "Nie znaleziono gracza")
      | some player =>
        let isImpostor := decide (lobby.impostorId = some player.id)
        (lobbies, .role isImpostor (if isImpostor then none else lobby.word))

/-- The loop of the create route that draws codes until one is not a key of
`lobbies`; `none` when every supplied draw is taken, the loop not having ended
yet. -/
def freshCode (lobbies : Registry) : List Nat → Option JSString
  | [] => none
  | r :: rs =>
    if lobbies.has (generateCode r) then freshCode lobbies rs
    else some (generateCode r)

/-- The list `difficultyOptions`. -/
def difficultyOptions : List JSString :=
  [utf16 "latwy", utf16 "sredni", utf16 "trudny"]

/-- The expression
`difficultyOptions.includes(difficulty) ? difficulty : 'latwy'`. -/
def difficultyValue (difficulty : JVal) : JSString :=
  match difficulty with
  | .str s => if s ∈ difficultyOptions then s else utf16 "latwy"
  | _ => utf16 "latwy"

/-- The expression `parseInt(maxPlayers, 10) || 3`; `none` is the `TypeError`
raised by `parseInt`. -/
def parseIntOr3 (maxPlayers : JVal) : Option Int :=
  match parseInt maxPlayers with
  | none => none
  | some none => some 3
  | some (some n) => if n = 0 then some 3 else some n

/-- The expression
`Math.min(Math.max(parseInt(maxPlayers, 10) || 3, 3), 12)`; `none` is the
`TypeError` raised by `parseInt`. -/
def clampMax (maxPlayers : JVal) : Option Int :=
  match parseIntOr3 maxPlayers with
  | none => none
  | some x => some (min (max x 3) 12)

/-- The route `POST /api/lobby/create`; `none` when the supplied draws do not
let the code loop end. The statements run in the order of the source: the
name is cleaned and `maxPlayers` parsed (either may raise the `TypeError`
that the `catch` answers with 400) before the name is tested for emptiness. -/
def apiCreate (env : Env) (lobbies : Registry) (body : CreateBody)
    (draws : List Nat) (now : Nat) : Option (Registry × Response) :=
  if body.adminPassword ≠ JVal.str env.ADMIN_PASSWORD then
    some (lobbies, .error 401 "Błędne hasło administratora")
  else
    match cleanName body.adminName with
    | none => some (lobbies, .error 400 "Nie udało się utworzyć lobby")
    | some name =>
      match clampMax body.maxPlayers with
      | none => some (lobbies, .error 400 "Nie udało się utworzyć lobby")
      | some max =>
        if name = [] then some (lobbies, .error 400 "Podaj nazwę admina")
        else
          match freshCode lobbies draws with
          | none => none
          | some code =>
            let lobby : Lobby :=
              Lobby.mk code (difficultyValue body.difficulty) max
                [Player.mk 1 name true] false none none now
            some (lobbies.set code lobby, .created code 1 (lobbySummary lobby))

/-- The route `POST /api/lobby/join`. -/
def apiJoin (env : Env) (lobbies : Registry) (body : JoinBody) :
    Registry × Response :=
  match body.code with
  | .str code =>
    match lobbies.getStr code with
    | none => (lobbies, .error 404 "Lobby nie istnieje")
    | some lobby =>
      if lobby.started then (lobbies, .error 400 "Gra już wystartowała")
      else if (lobby.players.length : Int) ≥ lobby.maxPlayers then
        (lobbies, .error 400 "Lobby jest pełne")
      else
        match cleanName body.name with
        | none => (lobbies, .error 400 "Nie udało się dołączyć")
        | some playerName =>
          if playerName = [] then (lobbies, .error 400 "Podaj nazwę gracza")
          else if lobby.players.any
              (fun p => decide (env.toLowerCase p.name = env.toLowerCase playerName)) then
            (lobbies, .error 400 "Ta nazwa jest już zajęta w tym lobby")
          else
            let player := Player.mk (lobby.players.length + 1) playerName false
            let lobby1 : Lobby := { lobby with players := lobby.players ++ [player] }
            (lobbies.set code lobby1, .joined player.id (lobbySummary lobby1))
  | _ => (lobbies, .error 404 "Lobby nie istnieje")

/-- The route `POST /api/lobby/start`. The assignments run in the order of the
source: `started` is set before the two draws. -/
def apiStart (env : Env) (lobbies : Registry) (body : StartBody) (r1 r2 : Nat) :
    Registry × Response :=
  match body.code with
  | .str code =>
    match lobbies.getStr code with
    | none => (lobbies, .error 404 "Lobby nie istnieje")
    | some lobby =>
      if body.adminPassword ≠ JVal.str env.ADMIN_PASSWORD then
        (lobbies, .error 401 "Błędne hasło administratora")
      else if lobby.started then (lobbies, .error 400 "Gra już została uruchomiona")
      else if lobby.players.length < 3 then
        (lobbies, .error 400 "Potrzeba co najmniej 3 graczy")
      else
        let lobby1 : Lobby := { lobby with started := true }
        match lobby1.players[randomInt r1 0 lobby1.players.length]? with
        | none => (lobbies.set code lobby1, .error 400 "Nie udało się uruchomić gry")
        | some p =>
          let lobby2 : Lobby := { lobby1 with impostorId := some p.id }
          let lobby3 : Lobby :=
            { lobby2 with word := words[randomInt r2 0 words.length]? }
          (lobbies.set code lobby3, .started (lobbySummary lobby3))
  | _ => (lobbies, .error 404 "Lobby nie istnieje")

/-- The function `handleApi` on the parsed request: the registry after the
request and the response sent. -/
def handleApi (env : Env) (lobbies : Registry) : Request → Option (Registry × Response)
  | .health => some (lobbies, .health)
  | .state code => some (apiState lobbies code)
  | .role code playerId => some (apiRole lobbies code playerId)
  | .create body draws now => apiCreate env lobbies body draws now
  | .join body => some (apiJoin env lobbies body)
  | .start body r1 r2 => some (apiStart env lobbies body r1 r2)

/-- Registries the server can be in: the empty map at start-up, then the result
of every request handled. -/
inductive Reachable (env : Env) : Registry → Prop where
  | init : Reachable env []
  | step {lobbies lobbies1 : Registry} {resp : Response} (req : Request) :
      Reachable env lobbies →
      handleApi env lobbies req = some (lobbies1, resp) →
      Reachable env lobbies1

/-- A run of requests from one registry to a later one. -/
inductive Steps (env : Env) : Registry → Registry → Prop where
  | refl (lobbies : Registry) : Steps env lobbies lobbies
  | step {a b c : Registry} {resp : Response} (req : Request) :
      Steps env a b →
      handleApi env b req = some (c, resp) →
      Steps env a c

/-- The environment used at concrete inputs: the default password `'admin'`
and the concrete `toLowerCase`. -/
def defaultEnv : Env where
  ADMIN_PASSWORD := utf16 "admin"
  toLowerCase := toLowerCase

/-- The registry after a list of requests handled one after the other. -/
def runRequests (env : Env) : Registry → List Request → Option Registry
  | lobbies, [] => some lobbies
  | lobbies, req :: rest =>
    match handleApi env lobbies req with
    | none => none
    | some (lobbies1, _) => runRequests env lobbies1 rest

/-- What holds of every lobby the server stores. -/
structure LobbyInv (env : Env) (l : Lobby) : Prop where
  ids : l.players.map (fun p => p.id) = List.range' 1 l.players.length
  nonempty : 1 ≤ l.players.length
  bound : (l.players.length : Int) ≤ l.maxPlayers
  names : l.players.Pairwise
    (fun p q => env.toLowerCase p.name ≠ env.toLowerCase q.name)
  roles : l.started = true →
    (∃ p ∈ l.players, l.impostorId = some p.id) ∧ (∃ w ∈ words, l.word = some w)
  unassigned : l.started = false → l.impostorId = none ∧ l.word = none

/-! ## A concrete game -/

/-- The code `'00000042'`. -/
def demoCode : JSString := utf16 "00000042"

/-- Ala creates a lobby for three, Bob and Ewa join. -/
def demoSetup : List Request :=
  [ .create ⟨.str (utf16 "admin"), .str (utf16 " Ala "), .num 3, .str (utf16 "sredni")⟩
      [42] 1000,
    .join ⟨.str demoCode, .str (utf16 "Bob")⟩,
    .join ⟨.str demoCode, .str (utf16 "Ewa")⟩ ]

/-- The three players of the concrete game. -/
def demoPlayers : List Player :=
  [⟨1, utf16 "Ala", true⟩, ⟨2, utf16 "Bob", false⟩, ⟨3, utf16 "Ewa", false⟩]

/-- The lobby of the concrete game before the start. -/
def demoOpenLobby : Lobby :=
  ⟨demoCode, utf16 "sredni", 3, demoPlayers, false, none, none, 1000⟩

/-- The lobby of the concrete game once started with the draws 7 and 3:
player 2 is the impostor and the word is `'silnik'`. -/
def demoLobby : Lobby :=
  ⟨demoCode, utf16 "sredni", 3, demoPlayers, true, some 2, some (utf16 "silnik"), 1000⟩

/-- The start request of the concrete game. -/
def demoStart : Request :=
  .start ⟨.str demoCode, .str (utf16 "admin")⟩ 7 3

/-- A second lobby is created; the first code drawn is already taken. -/
def demoCreate2 : Request :=
  .create ⟨.str (utf16 "admin"), .str (utf16 "Jan"), .undefined, .undefined⟩ [42, 7] 2000

/-- The second lobby. -/
def demoLobby2 : Lobby :=
  ⟨utf16 "00000007", utf16 "latwy", 3, [⟨1, utf16 "Jan", true⟩], false, none, none, 2000⟩

/-- The registry of the concrete game after the second creation. -/
def demoLater : Registry :=
  [(demoCode, demoLobby), (utf16 "00000007", demoLobby2)]

/-! ## The public part of the state -/

/-- A lobby with its two secrets blanked. -/
def Lobby.publicPart (l : Lobby) : Lobby :=
  { l with impostorId := none, word := none }

/-- Two registries with the same keys in the same order whose lobbies differ at
most in `impostorId` and `word`. -/
def PublicEq (a b : Registry) : Prop :=
  List.Forall₂ (fun x y => x.1 = y.1 ∧ x.2.publicPart = y.2.publicPart) a b

/-- Two outcomes of a request that send the same response and leave registries
that differ at most in the secrets (or both have not ended). -/
def sameOutcome : Option (Registry × Response) → Option (Registry × Response) → Prop
  | none, none => True
  | some (a, r), some (b, r1) => PublicEq a b ∧ r = r1
  | _, _ => False

/-- The concrete game with another outcome of the two draws: player 3 is the
impostor and the word is `'dom'`. -/
def demoLobbyAlt : Lobby :=
  { demoLobby with impostorId := some 3, word := some (utf16 "dom") }

/-! ## A name whose lower-case form is longer than itself -/

/-- U+0130 followed by 31 times `'a'`: 32 code units. -/
def dottedUpper : JSString := 304 :: List.replicate 31 97

/-- The units U+0069 U+0307 followed by 31 times `'a'`: 33 code units, the
lower-case form of `dottedUpper` and of itself. -/
def dottedLower : JSString := 105 :: 775 :: List.replicate 31 97

/-- The lobby created by an administrator named `dottedUpper`. -/
def dottedLobby : Lobby :=
  ⟨demoCode, utf16 "latwy", 3, [⟨1, dottedUpper, true⟩], false, none, none, 1000⟩

/-- The request creating `dottedLobby`. -/
def dottedCreate : Request :=
  .create ⟨.str (utf16 "admin"), .str dottedUpper, .undefined, .undefined⟩ [42] 1000

/-- The lobby after the join under the name `dottedLower`, stored cut to 32
code units. -/
def dottedJoined : Lobby :=
  { dottedLobby with
    players := [⟨1, dottedUpper, true⟩, ⟨2, dottedLower.take 32, false⟩] }

/-! ## Names and player counts at the edges -/

/-- The name `'a'`, 40 spaces, `'b'`: 42 code units, no white space at either
end. -/
def spacedName : JSString := 97 :: (List.replicate 40 32 ++ [98])

/-- The request creating a lobby for an administrator named `spacedName`. -/
def spacedCreate : Request :=
  .create ⟨.str (utf16 "admin"), .str spacedName, .undefined, .undefined⟩ [42] 1000

/-- The lobby stored for `spacedCreate`: the name is `'a'` followed by 31
spaces. -/
def spacedLobby : Lobby :=
  ⟨demoCode, utf16 "latwy", 3, [⟨1, 97 :: List.replicate 31 32, true⟩], false, none, none,
    1000⟩

/-- A create request of Ala with the given `maxPlayers`. -/
def createWithMax (maxPlayers : JVal) : Request :=
  .create ⟨.str (utf16 "admin"), .str (utf16 "Ala"), maxPlayers, .undefined⟩ [42] 1000

/-- The lobby of Ala alone with the given `maxPlayers`. -/
def lobbyWithMax (maxPlayers : Int) : Lobby :=
  ⟨demoCode, utf16 "latwy", maxPlayers, [⟨1, utf16 "Ala", true⟩], false, none, none, 1000⟩

/-! ## Facts about the registry -/

theorem getStr_set_self (lobbies : Registry) (k : JSString) (v : Lobby) :
    (lobbies.set k v).getStr k = some v := by
  induction lobbies with
  | nil => simp [Registry.set, Registry.getStr]
  | cons hd tl ih =>
    obtain ⟨k0, l0⟩ := hd
    by_cases h : k0 = k
    · simp [Registry.set, Registry.getStr, h]
    · simp [Registry.set, Registry.getStr, h, ih]

theorem getStr_set_ne (lobbies : Registry) (k k1 : JSString) (v : Lobby) (h : k1 ≠ k) :
    (lobbies.set k v).getStr k1 = lobbies.getStr k1 := by
  induction lobbies with
  | nil => simp [Registry.set, Registry.getStr, Ne.symm h]
  | cons hd tl ih =>
    obtain ⟨k0, l0⟩ := hd
    by_cases h0 : k0 = k
    · subst h0
      simp [Registry.set, Registry.getStr, Ne.symm h]
    · by_cases h1 : k0 = k1
      · subst h1
        simp [Registry.set, Registry.getStr, h0]
      · simp [Registry.set, Registry.getStr, h0, h1, ih]

theorem freshCode_unused (lobbies : Registry) (draws : List Nat) (code : JSString)
    (h : freshCode lobbies draws = some code) : lobbies.getStr code = none := by
  induction draws with
  | nil => simp [freshCode] at h
  | cons r rs ih =>
    simp only [freshCode] at h
    split at h
    · exact ih h
    · rename_i hhas
      simp only [Option.some.injEq] at h
      subst h
      simpa [Registry.has] using hhas

theorem randomInt_lt (r n : Nat) (h : 0 < n) : randomInt r 0 n < n := by
  simp only [randomInt, Nat.zero_add, Nat.sub_zero]
  exact Nat.mod_lt r h

/-- Every value of the range is drawn for some value of the random source. -/
theorem randomInt_onto (i n : Nat) (h : i < n) : randomInt i 0 n = i := by
  simp only [randomInt, Nat.zero_add, Nat.sub_zero]
  exact Nat.mod_eq_of_lt h

theorem words_length : words.length = 5 := rfl

theorem clampMax_bounds (v : JVal) (m : Int) (h : clampMax v = some m) :
    3 ≤ m ∧ m ≤ 12 := by
  unfold clampMax at h
  split at h
  · exact absurd h (by simp)
  · simp only [Option.some.injEq] at h
    omega

/-- The writes a request can make: none, the insertion of a new lobby, the
addition of a player to an open lobby with room, or the start of an open lobby
of at least three players. -/
theorem step_cases (env : Env) (lobbies lobbies1 : Registry) (req : Request)
    (resp : Response) (h : handleApi env lobbies req = some (lobbies1, resp)) :
    lobbies1 = lobbies
    ∨ (∃ code difficulty maxPlayers name now,
        lobbies.getStr code = none ∧ name ≠ [] ∧ 3 ≤ maxPlayers ∧ maxPlayers ≤ 12 ∧
        lobbies1 = lobbies.set code
          (Lobby.mk code difficulty maxPlayers [Player.mk 1 name true] false none none now))
    ∨ (∃ code lobby name,
        lobbies.getStr code = some lobby ∧ lobby.started = false ∧
        (lobby.players.length : Int) < lobby.maxPlayers ∧ name ≠ [] ∧
        (∀ p ∈ lobby.players, env.toLowerCase p.name ≠ env.toLowerCase name) ∧
        lobbies1 = lobbies.set code
          { lobby with
            players := lobby.players ++ [Player.mk (lobby.players.length + 1) name false] })
    ∨ (∃ code lobby p w,
        lobbies.getStr code = some lobby ∧ lobby.started = false ∧
        3 ≤ lobby.players.length ∧ p ∈ lobby.players ∧ w ∈ words ∧
        lobbies1 = lobbies.set code
          { lobby with started := true, impostorId := some p.id, word := some w }) := by
  cases req with
  | health =>
    simp only [handleApi, Option.some.injEq, Prod.mk.injEq] at h
    exact Or.inl h.1.symm
  | state code =>
    simp only [handleApi, apiState, Option.some.injEq] at h
    left
    split at h <;> · simp only [Prod.mk.injEq] at h; exact h.1.symm
  | role code playerId =>
    simp only [handleApi, apiRole, Option.some.injEq] at h
    left
    split at h
    · simp only [Prod.mk.injEq] at h; exact h.1.symm
    · split at h
      · simp only [Prod.mk.injEq] at h; exact h.1.symm
      · split at h <;> · simp only [Prod.mk.injEq] at h; exact h.1.symm
  | create body draws now =>
    simp only [handleApi, apiCreate] at h
    split at h
    · simp only [Option.some.injEq, Prod.mk.injEq] at h; exact Or.inl h.1.symm
    · split at h
      · simp only [Option.some.injEq, Prod.mk.injEq] at h; exact Or.inl h.1.symm
      · rename_i name hname
        split at h
        · simp only [Option.some.injEq, Prod.mk.injEq] at h; exact Or.inl h.1.symm
        · rename_i max hmax
          split at h
          · simp only [Option.some.injEq, Prod.mk.injEq] at h; exact Or.inl h.1.symm
          · rename_i hne
            split at h
            · exact absurd h (by simp)
            · rename_i code hcode
              simp only [Option.some.injEq, Prod.mk.injEq] at h
              right; left
              exact ⟨code, _, _, name, now, freshCode_unused _ _ _ hcode, hne,
                (clampMax_bounds _ _ hmax).1, (clampMax_bounds _ _ hmax).2, h.1.symm⟩
  | join body =>
    simp only [handleApi, apiJoin, Option.some.injEq] at h
    split at h
    · rename_i code hc
      split at h
      · simp only [Prod.mk.injEq] at h; exact Or.inl h.1.symm
      · rename_i lobby hl
        split at h
        · simp only [Prod.mk.injEq] at h; exact Or.inl h.1.symm
        · rename_i hst
          split at h
          · simp only [Prod.mk.injEq] at h; exact Or.inl h.1.symm
          · rename_i hfull
            split at h
            · simp only [Prod.mk.injEq] at h; exact Or.inl h.1.symm
            · rename_i name hname
              split at h
              · simp only [Prod.mk.injEq] at h; exact Or.inl h.1.symm
              · rename_i hne
                split at h
                · simp only [Prod.mk.injEq] at h; exact Or.inl h.1.symm
                · rename_i hdup
                  simp only [Prod.mk.injEq] at h
                  right; right; left
                  refine ⟨code, lobby, name, hl, by simpa using hst, by omega, hne, ?_, h.1.symm⟩
                  intro p hp heq
                  apply hdup
                  simp only [List.any_eq_true, decide_eq_true_eq]
                  exact ⟨p, hp, heq⟩
    · simp only [Prod.mk.injEq] at h; exact Or.inl h.1.symm
  | start body r1 r2 =>
    simp only [handleApi, apiStart, Option.some.injEq] at h
    split at h
    · rename_i code hc
      split at h
      · simp only [Prod.mk.injEq] at h; exact Or.inl h.1.symm
      · rename_i lobby hl
        split at h
        · simp only [Prod.mk.injEq] at h; exact Or.inl h.1.symm
        · split at h
          · simp only [Prod.mk.injEq] at h; exact Or.inl h.1.symm
          · rename_i hst
            split at h
            · simp only [Prod.mk.injEq] at h; exact Or.inl h.1.symm
            · rename_i hlen
              have hlt : randomInt r1 0 lobby.players.length < lobby.players.length :=
                randomInt_lt _ _ (by omega)
              have hw : randomInt r2 0 words.length < words.length :=
                randomInt_lt _ _ (by simp [words_length])
              split at h
              · rename_i hnone
                rw [List.getElem?_eq_getElem hlt] at hnone
                exact absurd hnone (by simp)
              · rename_i p hp
                rw [List.getElem?_eq_getElem hlt] at hp
                simp only [Option.some.injEq] at hp
                simp only [Prod.mk.injEq] at h
                right; right; right
                refine ⟨code, lobby, p, words[randomInt r2 0 words.length], hl,
                  by simpa using hst, by omega, ?_, List.getElem_mem _, ?_⟩
                · rw [← hp]; exact List.getElem_mem _
                · rw [← h.1, List.getElem?_eq_getElem hw]
    · simp only [Prod.mk.injEq] at h; exact Or.inl h.1.symm

theorem reachable_run (env : Env) (reqs : List Request) :
    ∀ lobbies lobbies1 : Registry, Reachable env lobbies →
      runRequests env lobbies reqs = some lobbies1 → Reachable env lobbies1 := by
  induction reqs with
  | nil =>
    intro lobbies lobbies1 hr h
    simp only [runRequests, Option.some.injEq] at h
    exact h ▸ hr
  | cons req rest ih =>
    intro lobbies lobbies1 hr h
    simp only [runRequests] at h
    split at h
    · exact absurd h (by simp)
    · rename_i mid resp hstep
      exact ih mid lobbies1 (Reachable.step req hr hstep) h

theorem demo_setup_run :
    runRequests defaultEnv [] demoSetup = some [(demoCode, demoOpenLobby)] := by
  decide

theorem demo_start_run :
    handleApi defaultEnv [(demoCode, demoOpenLobby)] demoStart
      = some ([(demoCode, demoLobby)], .started (lobbySummary demoLobby)) := by
  decide

theorem demo_reachable : Reachable defaultEnv [(demoCode, demoLobby)] :=
  Reachable.step demoStart
    (reachable_run defaultEnv demoSetup [] _ Reachable.init demo_setup_run) demo_start_run

/-- Every lobby of a reachable registry satisfies `LobbyInv`. -/
theorem reachable_inv (env : Env) (lobbies : Registry) (hr : Reachable env lobbies) :
    ∀ (k : JSString) (l : Lobby), lobbies.getStr k = some l → LobbyInv env l := by
  induction hr with
  | init =>
    intro k l h
    simp [Registry.getStr] at h
  | @step s s1 resp req _ hstep ih =>
    intro k l hl
    rcases step_cases env s s1 req resp hstep with h | h | h | h
    · rw [h] at hl
      exact ih k l hl
    · obtain ⟨code, difficulty, maxPlayers, name, now, _, _, hlo, _, hs1⟩ := h
      rw [hs1] at hl
      by_cases hk : k = code
      · rw [hk, getStr_set_self] at hl
        simp only [Option.some.injEq] at hl
        subst hl
        refine ⟨by simp, by simp, ?_, by simp, by simp, by simp⟩
        simp only [List.length_singleton, Nat.cast_one]
        omega
      · rw [getStr_set_ne _ _ _ _ hk] at hl
        exact ih k l hl
    · obtain ⟨code, lobby, name, hget, hst, hroom, _, hdup, hs1⟩ := h
      rw [hs1] at hl
      by_cases hk : k = code
      · rw [hk, getStr_set_self] at hl
        simp only [Option.some.injEq] at hl
        subst hl
        have inv := ih code lobby hget
        refine ⟨?_, by simp, ?_, ?_, ?_, ?_⟩
        · simp only [List.map_append, List.map_cons, List.map_nil, List.length_append,
            List.length_singleton, inv.ids, List.range'_concat, Nat.one_mul]
          rw [Nat.add_comm 1]
        · simp only [List.length_append, List.length_singleton, Nat.cast_add, Nat.cast_one]
          omega
        · rw [List.pairwise_append]
          refine ⟨inv.names, by simp, ?_⟩
          intro p hp q hq
          simp only [List.mem_singleton] at hq
          subst hq
          exact hdup p hp
        · intro h
          simp only [hst] at h
          exact absurd h (by simp)
        · intro _
          exact inv.unassigned hst
      · rw [getStr_set_ne _ _ _ _ hk] at hl
        exact ih k l hl
    · obtain ⟨code, lobby, p, w, hget, hst, hlen, hp, hw, hs1⟩ := h
      rw [hs1] at hl
      by_cases hk : k = code
      · rw [hk, getStr_set_self] at hl
        simp only [Option.some.injEq] at hl
        subst hl
        have inv := ih code lobby hget
        exact ⟨inv.ids, inv.nonempty, inv.bound, inv.names,
          fun _ => ⟨⟨p, hp, rfl⟩, ⟨w, hw, rfl⟩⟩, fun h => absurd h (by simp)⟩
      · rw [getStr_set_ne _ _ _ _ hk] at hl
        exact ih k l hl

/-- With distinct ids, `find` by the id of a member returns that member. -/
theorem find_by_id (ps : List Player) (hnd : (ps.map (fun p => p.id)).Nodup)
    (p : Player) (hp : p ∈ ps) :
    ps.find? (fun q => decide (some (q.id : Int) = some (p.id : Int))) = some p := by
  induction ps with
  | nil => simp at hp
  | cons q qs ih =>
    simp only [List.map_cons, List.nodup_cons] at hnd
    by_cases hq : q = p
    · subst hq
      simp [List.find?]
    · have hmem : p ∈ qs := by
        rcases List.mem_cons.mp hp with h | h
        · exact absurd h.symm hq
        · exact h
      have hid : q.id ≠ p.id := by
        intro h
        apply hnd.1
        rw [h]
        exact List.mem_map_of_mem _ hmem
      have hfalse : decide (some (q.id : Int) = some (p.id : Int)) = false := by
        simp only [Option.some.injEq, Nat.cast_inj, decide_eq_false_iff_not]
        exact hid
      rw [List.find?_cons, hfalse]
      exact ih hnd.2 hmem

theorem ids_nodup (env : Env) (l : Lobby) (inv : LobbyInv env l) :
    (l.players.map (fun p => p.id)).Nodup := by
  rw [inv.ids]
  exact List.nodup_range' 1 _

/-- Among players with distinct ids, exactly one has a given member's id. -/
theorem count_by_id (ps : List Player) (hnd : (ps.map (fun p => p.id)).Nodup)
    (q : Player) (hq : q ∈ ps) :
    ps.countP (fun p => decide (some q.id = some p.id)) = 1 := by
  have h1 : (ps.map (fun p => p.id)).count q.id = 1 :=
    List.count_eq_one_of_mem hnd (List.mem_map_of_mem _ hq)
  rw [List.count, List.countP_map] at h1
  rw [← h1]
  apply List.countP_congr
  intro p _
  by_cases h : q.id = p.id
  · simp [h]
  · have h2 : ¬ p.id = q.id := fun e => h e.symm
    simp [h, h2]

/-! ## The lobby life cycle -/

/-- C1: in a reachable registry, for a started lobby and the id of any of its
players, the role query answers `isImpostor: true, word: null` when the id is
the lobby's `impostorId` and `isImpostor: false` with the lobby's word
otherwise; the word is not null, and exactly one player of the lobby is the
impostor (so exactly one receives a null word, the others the same word). -/
theorem role_query_after_start (env : Env) (lobbies : Registry)
    (hr : Reachable env lobbies) (code : JSString) (lobby : Lobby)
    (hl : lobbies.get (.str code) = some lobby) (hs : lobby.started = true) :
    (∃ w, lobby.word = some w ∧
      ∀ p ∈ lobby.players,
        handleApi env lobbies (.role (.str code) (some (p.id : Int)))
          = some (lobbies,
              if lobby.impostorId = some p.id then Response.role true none
              else Response.role false (some w)))
    ∧ lobby.players.countP (fun p => decide (lobby.impostorId = some p.id)) = 1 := by
  have inv := reachable_inv env lobbies hr code lobby hl
  obtain ⟨⟨q, hq, himp⟩, ⟨w, _, hw⟩⟩ := inv.roles hs
  have hnd := ids_nodup env lobby inv
  refine ⟨⟨w, hw, ?_⟩, ?_⟩
  · intro p hp
    simp only [handleApi, apiRole, hl, hs, Bool.not_true, Bool.false_eq_true, if_false,
      find_by_id lobby.players hnd p hp, hw]
    by_cases h : lobby.impostorId = some p.id
    · simp [h]
    · simp [h]
  · rw [himp]
    exact count_by_id lobby.players hnd q hq

/-- The concrete game: player 2 is told to be the impostor, players 1 and 3
receive `'silnik'`. -/
theorem role_query_after_start_witness :
    (∃ w, demoLobby.word = some w ∧
      ∀ p ∈ demoLobby.players,
        handleApi defaultEnv [(demoCode, demoLobby)] (.role (.str demoCode) (some (p.id : Int)))
          = some ([(demoCode, demoLobby)],
              if demoLobby.impostorId = some p.id then Response.role true none
              else Response.role false (some w)))
    ∧ demoLobby.players.countP (fun p => decide (demoLobby.impostorId = some p.id)) = 1 :=
  role_query_after_start defaultEnv [(demoCode, demoLobby)] demo_reachable demoCode demoLobby
    (by decide) (by decide)

/-- C4: every lobby of a reachable registry has at least one player and at most
`maxPlayers`; and a join on a lobby whose player count equals `maxPlayers` is
answered with status 400 and changes nothing. -/
theorem players_within_bounds (env : Env) (lobbies : Registry)
    (hr : Reachable env lobbies) (code : JSString) (lobby : Lobby)
    (hl : lobbies.get (.str code) = some lobby) :
    (1 ≤ lobby.players.length ∧ (lobby.players.length : Int) ≤ lobby.maxPlayers)
    ∧ ((lobby.players.length : Int) = lobby.maxPlayers →
        ∀ name : JVal, ∃ msg,
          handleApi env lobbies (.join ⟨.str code, name⟩) = some (lobbies, .error 400 msg)) := by
  have inv := reachable_inv env lobbies hr code lobby hl
  refine ⟨⟨inv.nonempty, inv.bound⟩, ?_⟩
  intro hfull name
  have hl1 : lobbies.getStr code = some lobby := hl
  simp only [handleApi, apiJoin, hl1]
  by_cases hst : lobby.started = true
  · exact ⟨"Gra już wystartowała", by simp [hst]⟩
  · have hge : (lobby.players.length : Int) ≥ lobby.maxPlayers := by omega
    exact ⟨"Lobby jest pełne", by simp [hst, hge]⟩

/-- The concrete game: its lobby of three is full and a fourth player is
refused. -/
theorem players_within_bounds_witness :
    (1 ≤ demoOpenLobby.players.length
      ∧ (demoOpenLobby.players.length : Int) ≤ demoOpenLobby.maxPlayers)
    ∧ ((demoOpenLobby.players.length : Int) = demoOpenLobby.maxPlayers →
        ∀ name : JVal, ∃ msg,
          handleApi defaultEnv [(demoCode, demoOpenLobby)] (.join ⟨.str demoCode, name⟩)
            = some ([(demoCode, demoOpenLobby)], .error 400 msg)) :=
  players_within_bounds defaultEnv [(demoCode, demoOpenLobby)]
    (reachable_run defaultEnv demoSetup [] _ Reachable.init demo_setup_run)
    demoCode demoOpenLobby (by decide)

/-- C5: in a reachable registry, two players at different positions of the same
lobby never have names with the same lower-case form. -/
theorem names_distinct_ignoring_case (env : Env) (lobbies : Registry)
    (hr : Reachable env lobbies) (code : JSString) (lobby : Lobby)
    (hl : lobbies.get (.str code) = some lobby)
    (i j : Nat) (hi : i < lobby.players.length) (hj : j < lobby.players.length)
    (hij : i ≠ j) :
    env.toLowerCase (lobby.players[i]).name ≠ env.toLowerCase (lobby.players[j]).name := by
  have inv := reachable_inv env lobbies hr code lobby hl
  have hp := List.pairwise_iff_getElem.mp inv.names
  rcases Nat.lt_or_gt_of_ne hij with h | h
  · exact hp i j hi hj h
  · exact fun e => hp j i hj hi h e.symm

/-- The concrete game: `'Ala'` and `'Bob'` differ in lower case. -/
theorem names_distinct_ignoring_case_witness :
    defaultEnv.toLowerCase (demoOpenLobby.players[0]).name
      ≠ defaultEnv.toLowerCase (demoOpenLobby.players[1]).name :=
  names_distinct_ignoring_case defaultEnv [(demoCode, demoOpenLobby)]
    (reachable_run defaultEnv demoSetup [] _ Reachable.init demo_setup_run)
    demoCode demoOpenLobby (by decide) 0 1 (by decide) (by decide) (by decide)

/-- C8: in a reachable registry, the `impostorId` of a started lobby is the id
of one of its players and its word is one of `words`, whatever the random
source gave. -/
theorem started_roles_valid (env : Env) (lobbies : Registry)
    (hr : Reachable env lobbies) (code : JSString) (lobby : Lobby)
    (hl : lobbies.get (.str code) = some lobby) (hs : lobby.started = true) :
    (∃ p ∈ lobby.players, lobby.impostorId = some p.id)
    ∧ (∃ w ∈ words, lobby.word = some w) :=
  (reachable_inv env lobbies hr code lobby hl).roles hs

/-- The concrete game: the impostor is among its players and the word is in
the list. -/
theorem started_roles_valid_witness :
    (∃ p ∈ demoLobby.players, demoLobby.impostorId = some p.id)
    ∧ (∃ w ∈ words, demoLobby.word = some w) :=
  started_roles_valid defaultEnv [(demoCode, demoLobby)] demo_reachable demoCode demoLobby
    (by decide) (by decide)

/-- C9: in a reachable registry, `impostorId` and `word` of a lobby are both
non-null exactly when the lobby is started, and both null while it is not. -/
theorem secrets_iff_started (env : Env) (lobbies : Registry)
    (hr : Reachable env lobbies) (code : JSString) (lobby : Lobby)
    (hl : lobbies.get (.str code) = some lobby) :
    ((lobby.impostorId ≠ none ∧ lobby.word ≠ none) ↔ lobby.started = true)
    ∧ (lobby.started = false → lobby.impostorId = none ∧ lobby.word = none) := by
  have inv := reachable_inv env lobbies hr code lobby hl
  refine ⟨⟨?_, ?_⟩, inv.unassigned⟩
  · intro h
    by_contra hst
    have hf : lobby.started = false := by simpa using hst
    exact h.1 (inv.unassigned hf).1
  · intro hst
    obtain ⟨⟨p, _, hp⟩, ⟨w, _, hw⟩⟩ := inv.roles hst
    rw [hp, hw]
    exact ⟨by simp, by simp⟩

/-- The concrete game before its start: both secrets are null. -/
theorem secrets_iff_started_witness :
    ((demoOpenLobby.impostorId ≠ none ∧ demoOpenLobby.word ≠ none)
        ↔ demoOpenLobby.started = true)
    ∧ (demoOpenLobby.started = false →
        demoOpenLobby.impostorId = none ∧ demoOpenLobby.word = none) :=
  secrets_iff_started defaultEnv [(demoCode, demoOpenLobby)]
    (reachable_run defaultEnv demoSetup [] _ Reachable.init demo_setup_run)
    demoCode demoOpenLobby (by decide)

theorem demo_later_run :
    handleApi defaultEnv [(demoCode, demoLobby)] demoCreate2
      = some (demoLater, .created (utf16 "00000007") 1 (lobbySummary demoLobby2)) := by
  decide

/-- A request leaves a started lobby as it is. -/
theorem started_lobby_kept (env : Env) (b c : Registry) (req : Request) (resp : Response)
    (h : handleApi env b req = some (c, resp)) (code : JSString) (lobby : Lobby)
    (hget : b.getStr code = some lobby) (hs : lobby.started = true) :
    c.getStr code = some lobby := by
  rcases step_cases env b c req resp h with h | h | h | h
  · rw [h]; exact hget
  · obtain ⟨code1, _, _, _, _, hnone, _, _, _, hc⟩ := h
    have hne : code ≠ code1 := by
      intro e
      rw [e, hnone] at hget
      exact absurd hget (by simp)
    rw [hc, getStr_set_ne _ _ _ _ hne]
    exact hget
  · obtain ⟨code1, lobby1, _, hget1, hst1, _, _, _, hc⟩ := h
    have hne : code ≠ code1 := by
      intro e
      rw [e, hget1] at hget
      simp only [Option.some.injEq] at hget
      rw [hget, hs] at hst1
      exact absurd hst1 (by simp)
    rw [hc, getStr_set_ne _ _ _ _ hne]
    exact hget
  · obtain ⟨code1, lobby1, _, _, hget1, hst1, _, _, _, hc⟩ := h
    have hne : code ≠ code1 := by
      intro e
      rw [e, hget1] at hget
      simp only [Option.some.injEq] at hget
      rw [hget, hs] at hst1
      exact absurd hst1 (by simp)
    rw [hc, getStr_set_ne _ _ _ _ hne]
    exact hget

/-- C10: once a lobby is started, after any further run of requests the
registry still holds that very lobby (same players, `impostorId`, word and
`started` flag), a join on it is answered with status 400 and a start on it
with status 401 or 400, neither changing the registry. -/
theorem started_is_terminal (env : Env) (a b : Registry) (code : JSString) (lobby : Lobby)
    (hget : a.get (.str code) = some lobby) (hs : lobby.started = true)
    (hsteps : Steps env a b) :
    b.get (.str code) = some lobby
    ∧ (∀ name : JVal, ∃ msg,
        handleApi env b (.join ⟨.str code, name⟩) = some (b, .error 400 msg))
    ∧ (∀ (pw : JVal) (r1 r2 : Nat), ∃ status msg, (status = 401 ∨ status = 400) ∧
        handleApi env b (.start ⟨.str code, pw⟩ r1 r2) = some (b, .error status msg)) := by
  have hb : b.getStr code = some lobby := by
    induction hsteps with
    | refl => exact hget
    | step req _ hstep ih => exact started_lobby_kept env _ _ req _ hstep code lobby ih hs
  refine ⟨hb, ?_, ?_⟩
  · intro name
    exact ⟨"Gra już wystartowała", by simp [handleApi, apiJoin, hb, hs]⟩
  · intro pw r1 r2
    by_cases hpw : pw = JVal.str env.ADMIN_PASSWORD
    · exact ⟨400, "Gra już została uruchomiona", Or.inr rfl,
        by simp [handleApi, apiStart, hb, hs, hpw]⟩
    · exact ⟨401, "Błędne hasło administratora", Or.inl rfl,
        by simp [handleApi, apiStart, hb, hpw]⟩

/-- The concrete game, after its start and one more request (a second lobby is
created): the started lobby is as it was and refuses joins and restarts. -/
theorem started_is_terminal_witness :
    demoLater.get (.str demoCode) = some demoLobby
    ∧ (∀ name : JVal, ∃ msg,
        handleApi defaultEnv demoLater (.join ⟨.str demoCode, name⟩)
          = some (demoLater, .error 400 msg))
    ∧ (∀ (pw : JVal) (r1 r2 : Nat), ∃ status msg, (status = 401 ∨ status = 400) ∧
        handleApi defaultEnv demoLater (.start ⟨.str demoCode, pw⟩ r1 r2)
          = some (demoLater, .error status msg)) :=
  started_is_terminal defaultEnv [(demoCode, demoLobby)] demoLater demoCode demoLobby
    (by decide) (by decide) (Steps.step demoCreate2 (Steps.refl _) demo_later_run)

/-- C3: a join answered with status 200 was made on an existing lobby; the
response carries the id `n + 1` for `n` the previous number of players and the
summary of the new lobby; the new lobby is the old one with the player
`{ id: n + 1, name: cleanName(name), isAdmin: false }` appended and nothing
else changed; every other key of the registry maps to what it did. -/
theorem join_success (env : Env) (lobbies lobbies1 : Registry) (body : JoinBody)
    (resp : Response)
    (h : handleApi env lobbies (.join body) = some (lobbies1, resp))
    (hok : resp.status = 200) :
    ∃ code lobby name,
      body.code = .str code ∧ lobbies.get (.str code) = some lobby
      ∧ cleanName body.name = some name
      ∧ lobbies1.get (.str code) = some
          { lobby with
            players := lobby.players ++ [Player.mk (lobby.players.length + 1) name false] }
      ∧ resp = .joined (lobby.players.length + 1) (lobbySummary
          { lobby with
            players := lobby.players ++ [Player.mk (lobby.players.length + 1) name false] })
      ∧ ∀ key : JVal, key ≠ .str code → lobbies1.get key = lobbies.get key := by
  simp only [handleApi, apiJoin, Option.some.injEq] at h
  split at h
  · rename_i code hc
    split at h
    · simp only [Prod.mk.injEq] at h; rw [← h.2] at hok; simp [Response.status] at hok
    · rename_i lobby hl
      split at h
      · simp only [Prod.mk.injEq] at h; rw [← h.2] at hok; simp [Response.status] at hok
      · split at h
        · simp only [Prod.mk.injEq] at h; rw [← h.2] at hok; simp [Response.status] at hok
        · split at h
          · simp only [Prod.mk.injEq] at h; rw [← h.2] at hok; simp [Response.status] at hok
          · rename_i name hname
            split at h
            · simp only [Prod.mk.injEq] at h; rw [← h.2] at hok
              simp [Response.status] at hok
            · split at h
              · simp only [Prod.mk.injEq] at h; rw [← h.2] at hok
                simp [Response.status] at hok
              · simp only [Prod.mk.injEq] at h
                refine ⟨code, lobby, name, hc, hl, hname, ?_, h.2.symm, ?_⟩
                · rw [← h.1]
                  exact getStr_set_self _ _ _
                · intro key hkey
                  rw [← h.1]
                  cases key with
                  | str k =>
                    have hk : k ≠ code := fun e => hkey (by rw [e])
                    exact getStr_set_ne _ _ _ _ hk
                  | _ => rfl
  · simp only [Prod.mk.injEq] at h; rw [← h.2] at hok; simp [Response.status] at hok

/-- The concrete game: Ewa joins the lobby of Ala and Bob as player 3. -/
theorem join_success_witness :
    ∃ code lobby name,
      (JoinBody.mk (.str demoCode) (.str (utf16 " Ewa"))).code = .str code
      ∧ Registry.get [(demoCode, { demoOpenLobby with players := demoPlayers.take 2 })]
          (.str code) = some lobby
      ∧ cleanName (JoinBody.mk (.str demoCode) (.str (utf16 " Ewa"))).name = some name
      ∧ Registry.get [(demoCode, demoOpenLobby)] (.str code) = some
          { lobby with
            players := lobby.players ++ [Player.mk (lobby.players.length + 1) name false] }
      ∧ Response.joined 3 (lobbySummary demoOpenLobby)
          = .joined (lobby.players.length + 1) (lobbySummary
          { lobby with
            players := lobby.players ++ [Player.mk (lobby.players.length + 1) name false] })
      ∧ ∀ key : JVal, key ≠ .str code →
          Registry.get [(demoCode, demoOpenLobby)] key
            = Registry.get [(demoCode, { demoOpenLobby with players := demoPlayers.take 2 })]
                key :=
  join_success defaultEnv
    [(demoCode, { demoOpenLobby with players := demoPlayers.take 2 })]
    [(demoCode, demoOpenLobby)] ⟨.str demoCode, .str (utf16 " Ewa")⟩
    (.joined 3 (lobbySummary demoOpenLobby)) (by decide) (by decide)

/-- C7: a start request is answered with status 200 exactly when its code is
the key of a lobby, the password is the administrator password, the lobby is
not started and it has at least three players; otherwise the status is 404 when
no lobby has that key, else 401 when the password differs, else 400. -/
theorem start_outcome (env : Env) (lobbies : Registry) (body : StartBody) (r1 r2 : Nat) :
    ∃ lobbies1 resp,
      handleApi env lobbies (.start body r1 r2) = some (lobbies1, resp)
      ∧ (resp.status = 200 ↔
          ∃ lobby, lobbies.get body.code = some lobby
            ∧ body.adminPassword = .str env.ADMIN_PASSWORD
            ∧ lobby.started = false ∧ 3 ≤ lobby.players.length)
      ∧ (lobbies.get body.code = none → resp.status = 404)
      ∧ (∀ lobby, lobbies.get body.code = some lobby →
          body.adminPassword ≠ .str env.ADMIN_PASSWORD → resp.status = 401)
      ∧ (∀ lobby, lobbies.get body.code = some lobby →
          body.adminPassword = .str env.ADMIN_PASSWORD →
          (lobby.started = true ∨ lobby.players.length < 3) → resp.status = 400) := by
  refine ⟨(apiStart env lobbies body r1 r2).1, (apiStart env lobbies body r1 r2).2, rfl, ?_⟩
  obtain ⟨code, pw⟩ := body
  cases hg : lobbies.get code with
  | none =>
    have hstat : (apiStart env lobbies ⟨code, pw⟩ r1 r2).2.status = 404 := by
      cases code with
      | str k =>
        have hk : lobbies.getStr k = none := hg
        simp [apiStart, hk, Response.status]
      | _ => simp [apiStart, Response.status]
    rw [hstat]
    refine ⟨by simp, fun _ => rfl, ?_, ?_⟩
    · intro lobby hl; exact absurd hl (by simp)
    · intro lobby hl; exact absurd hl (by simp)
  | some lobby =>
    cases code with
    | str k =>
      have hk : lobbies.getStr k = some lobby := hg
      by_cases hpw : pw = JVal.str env.ADMIN_PASSWORD
      · by_cases hst : lobby.started = true
        · have hstat : (apiStart env lobbies ⟨.str k, pw⟩ r1 r2).2.status = 400 := by
            simp [apiStart, hk, hpw, hst, Response.status]
          rw [hstat]
          refine ⟨by simp [hst], fun h => absurd h (by simp), ?_, fun _ _ _ _ => rfl⟩
          intro _ _ h; exact absurd hpw h
        · by_cases hlen : lobby.players.length < 3
          · have hstat : (apiStart env lobbies ⟨.str k, pw⟩ r1 r2).2.status = 400 := by
              simp [apiStart, hk, hpw, hst, hlen, Response.status]
            rw [hstat]
            refine ⟨?_, fun h => absurd h (by simp), ?_, fun _ _ _ _ => rfl⟩
            · simp only [Option.some.injEq, exists_eq_left']
              constructor
              · intro h; exact absurd h (by decide)
              · intro h; omega
            · intro _ _ h; exact absurd hpw h
          · have hlt : randomInt r1 0 lobby.players.length < lobby.players.length :=
              randomInt_lt _ _ (by omega)
            have hstat : (apiStart env lobbies ⟨.str k, pw⟩ r1 r2).2.status = 200 := by
              simp only [apiStart, hk, hpw, hst, hlen, ne_eq, not_true_eq_false,
                if_false, List.getElem?_eq_getElem hlt, Bool.false_eq_true, Response.status]
            rw [hstat]
            refine ⟨?_, fun h => absurd h (by simp), ?_, ?_⟩
            · simp only [Option.some.injEq, exists_eq_left', true_iff]
              exact ⟨hpw, by simpa using hst, by omega⟩
            · intro _ _ h; exact absurd hpw h
            · intro l hl _ h
              simp only [Option.some.injEq] at hl
              subst hl
              rcases h with h | h
              · exact absurd h hst
              · exact absurd h hlen
      · have hstat : (apiStart env lobbies ⟨.str k, pw⟩ r1 r2).2.status = 401 := by
          simp [apiStart, hk, hpw, Response.status]
        rw [hstat]
        refine ⟨by simp [hpw], fun h => absurd h (by simp), fun _ _ _ => rfl, ?_⟩
        intro _ _ h; exact absurd h hpw
    | _ => simp [Registry.get] at hg

/-! ## What the public responses depend on -/

theorem summary_publicPart (l : Lobby) : lobbySummary l.publicPart = lobbySummary l := rfl

theorem summary_of_publicPart (la lb : Lobby) (h : la.publicPart = lb.publicPart) :
    lobbySummary la = lobbySummary lb := by
  rw [← summary_publicPart la, ← summary_publicPart lb, h]

theorem publicEq_refl (a : Registry) : PublicEq a a := by
  induction a with
  | nil => exact List.Forall₂.nil
  | cons hd tl ih => exact List.Forall₂.cons ⟨rfl, rfl⟩ ih

theorem publicEq_getStr (a b : Registry) (h : PublicEq a b) (k : JSString) :
    (a.getStr k = none ∧ b.getStr k = none)
    ∨ ∃ la lb, a.getStr k = some la ∧ b.getStr k = some lb
        ∧ la.publicPart = lb.publicPart := by
  induction h with
  | nil => exact Or.inl ⟨rfl, rfl⟩
  | @cons x y ta tb hxy _ ih =>
    obtain ⟨kx, lx⟩ := x
    obtain ⟨ky, ly⟩ := y
    obtain ⟨hk, hp⟩ := hxy
    simp only at hk hp
    subst hk
    by_cases hkk : kx = k
    · right
      exact ⟨lx, ly, by simp [Registry.getStr, hkk], by simp [Registry.getStr, hkk], hp⟩
    · simpa [Registry.getStr, hkk] using ih

theorem publicEq_set (a b : Registry) (h : PublicEq a b) (k : JSString) (la lb : Lobby)
    (hp : la.publicPart = lb.publicPart) : PublicEq (a.set k la) (b.set k lb) := by
  induction h with
  | nil => exact List.Forall₂.cons ⟨rfl, hp⟩ List.Forall₂.nil
  | @cons x y ta tb hxy htl ih =>
    obtain ⟨kx, lx⟩ := x
    obtain ⟨ky, ly⟩ := y
    obtain ⟨hk, hq⟩ := hxy
    simp only at hk hq
    subst hk
    by_cases hkk : kx = k
    · simp only [Registry.set, hkk, if_true]
      exact List.Forall₂.cons ⟨rfl, hp⟩ htl
    · simp only [Registry.set, hkk, if_false]
      exact List.Forall₂.cons ⟨rfl, hq⟩ ih

theorem publicEq_freshCode (a b : Registry) (h : PublicEq a b) (draws : List Nat) :
    freshCode a draws = freshCode b draws := by
  induction draws with
  | nil => rfl
  | cons r rs ih =>
    have hhas : a.has (generateCode r) = b.has (generateCode r) := by
      rcases publicEq_getStr a b h (generateCode r) with ⟨h1, h2⟩ | ⟨la, lb, h1, h2, _⟩
      · simp [Registry.has, h1, h2]
      · simp [Registry.has, h1, h2]
    simp only [freshCode, hhas, ih]

theorem apiState_public (a b : Registry) (h : PublicEq a b) (code : JVal) :
    PublicEq (apiState a code).1 (apiState b code).1
    ∧ (apiState a code).2 = (apiState b code).2 := by
  cases code with
  | str k =>
    rcases publicEq_getStr a b h k with ⟨h1, h2⟩ | ⟨la, lb, h1, h2, hp⟩
    · simp [apiState, Registry.get, h1, h2, h]
    · simp [apiState, Registry.get, h1, h2, h, summary_of_publicPart la lb hp]
  | _ => simp [apiState, Registry.get, h]

theorem apiCreate_public (env : Env) (a b : Registry) (h : PublicEq a b) (body : CreateBody)
    (draws : List Nat) (now : Nat) :
    sameOutcome (apiCreate env a body draws now) (apiCreate env b body draws now) := by
  simp only [apiCreate, publicEq_freshCode a b h]
  split
  · exact ⟨h, rfl⟩
  · split
    · exact ⟨h, rfl⟩
    · split
      · exact ⟨h, rfl⟩
      · split
        · exact ⟨h, rfl⟩
        · split
          · trivial
          · exact ⟨publicEq_set a b h _ _ _ rfl, rfl⟩

theorem apiJoin_public (env : Env) (a b : Registry) (h : PublicEq a b) (body : JoinBody) :
    PublicEq (apiJoin env a body).1 (apiJoin env b body).1
    ∧ (apiJoin env a body).2 = (apiJoin env b body).2 := by
  obtain ⟨code, name⟩ := body
  cases code with
  | str k =>
    rcases publicEq_getStr a b h k with ⟨h1, h2⟩ | ⟨la, lb, h1, h2, hp⟩
    · simp [apiJoin, h1, h2, h]
    · obtain ⟨c, d, m, ps, st, imp, w, t⟩ := la
      obtain ⟨c1, d1, m1, ps1, st1, imp1, w1, t1⟩ := lb
      simp only [Lobby.publicPart, Lobby.mk.injEq, true_and] at hp
      obtain ⟨hc, hd, hm, hps, hst, ht⟩ := hp
      subst hc hd hm hps hst ht
      simp only [apiJoin, h1, h2]
      split
      · exact ⟨h, rfl⟩
      · split
        · exact ⟨h, rfl⟩
        · split
          · exact ⟨h, rfl⟩
          · split
            · exact ⟨h, rfl⟩
            · split
              · exact ⟨h, rfl⟩
              · exact ⟨publicEq_set a b h _ _ _ rfl, rfl⟩
  | _ => simp [apiJoin, h]

theorem apiStart_public (env : Env) (a b : Registry) (h : PublicEq a b) (body : StartBody)
    (r1 r2 r3 r4 : Nat) :
    PublicEq (apiStart env a body r1 r2).1 (apiStart env b body r3 r4).1
    ∧ (apiStart env a body r1 r2).2 = (apiStart env b body r3 r4).2 := by
  obtain ⟨code, pw⟩ := body
  cases code with
  | str k =>
    rcases publicEq_getStr a b h k with ⟨h1, h2⟩ | ⟨la, lb, h1, h2, hp⟩
    · simp [apiStart, h1, h2, h]
    · obtain ⟨c, d, m, ps, st, imp, w, t⟩ := la
      obtain ⟨c1, d1, m1, ps1, st1, imp1, w1, t1⟩ := lb
      simp only [Lobby.publicPart, Lobby.mk.injEq, true_and] at hp
      obtain ⟨hc, hd, hm, hps, hst, ht⟩ := hp
      subst hc hd hm hps hst ht
      simp only [apiStart, h1, h2]
      split
      · exact ⟨h, rfl⟩
      · split
        · exact ⟨h, rfl⟩
        · split
          · exact ⟨h, rfl⟩
          · rename_i hlen
            have hlt1 : randomInt r1 0 ps.length < ps.length := randomInt_lt _ _ (by omega)
            have hlt3 : randomInt r3 0 ps.length < ps.length := randomInt_lt _ _ (by omega)
            simp only [List.getElem?_eq_getElem hlt1, List.getElem?_eq_getElem hlt3]
            exact ⟨publicEq_set a b h _ _ _ rfl, rfl⟩
  | _ => simp [apiStart, h]

/-- C2: `lobbySummary` gives equal values on two lobbies that agree on `code`,
`difficulty`, `maxPlayers`, `players`, `started` and `createdAt`; and on two
registries that differ at most in the `impostorId` and `word` of their lobbies,
a state, create or join request, and a start request whatever its two draws,
is answered with the same response and leaves registries that again differ at
most in those secrets. -/
theorem summary_hides_secrets (env : Env) (a b : Registry) (hab : PublicEq a b) :
    (∀ l1 l2 : Lobby, l1.code = l2.code → l1.difficulty = l2.difficulty →
        l1.maxPlayers = l2.maxPlayers → l1.players = l2.players →
        l1.started = l2.started → l1.createdAt = l2.createdAt →
        lobbySummary l1 = lobbySummary l2)
    ∧ (∀ code, sameOutcome (handleApi env a (.state code)) (handleApi env b (.state code)))
    ∧ (∀ body draws now, sameOutcome (handleApi env a (.create body draws now))
        (handleApi env b (.create body draws now)))
    ∧ (∀ body, sameOutcome (handleApi env a (.join body)) (handleApi env b (.join body)))
    ∧ (∀ body r1 r2 r3 r4, sameOutcome (handleApi env a (.start body r1 r2))
        (handleApi env b (.start body r3 r4))) := by
  refine ⟨?_, ?_, ?_, ?_, ?_⟩
  · intro l1 l2 h1 h2 h3 h4 h5 h6
    simp only [lobbySummary, h1, h2, h3, h4, h5, h6]
  · intro code
    exact apiState_public a b hab code
  · intro body draws now
    exact apiCreate_public env a b hab body draws now
  · intro body
    exact apiJoin_public env a b hab body
  · intro body r1 r2 r3 r4
    exact apiStart_public env a b hab body r1 r2 r3 r4

/-- The concrete game under two outcomes of the draws (impostor 2 with
`'silnik'`, impostor 3 with `'dom'`): the public responses agree. -/
theorem summary_hides_secrets_witness :
    (∀ l1 l2 : Lobby, l1.code = l2.code → l1.difficulty = l2.difficulty →
        l1.maxPlayers = l2.maxPlayers → l1.players = l2.players →
        l1.started = l2.started → l1.createdAt = l2.createdAt →
        lobbySummary l1 = lobbySummary l2)
    ∧ (∀ code, sameOutcome (handleApi defaultEnv [(demoCode, demoLobby)] (.state code))
        (handleApi defaultEnv [(demoCode, demoLobbyAlt)] (.state code)))
    ∧ (∀ body draws now,
        sameOutcome (handleApi defaultEnv [(demoCode, demoLobby)] (.create body draws now))
          (handleApi defaultEnv [(demoCode, demoLobbyAlt)] (.create body draws now)))
    ∧ (∀ body, sameOutcome (handleApi defaultEnv [(demoCode, demoLobby)] (.join body))
        (handleApi defaultEnv [(demoCode, demoLobbyAlt)] (.join body)))
    ∧ (∀ body r1 r2 r3 r4,
        sameOutcome (handleApi defaultEnv [(demoCode, demoLobby)] (.start body r1 r2))
          (handleApi defaultEnv [(demoCode, demoLobbyAlt)] (.start body r3 r4))) :=
  summary_hides_secrets defaultEnv [(demoCode, demoLobby)] [(demoCode, demoLobbyAlt)]
    (List.Forall₂.cons ⟨rfl, rfl⟩ List.Forall₂.nil)

/-! ## Duplicate names -/

/-- C6, as stated, fails: in the reachable registry holding `dottedLobby`, the
submitted name `dottedLower` has the same lower-case form as the name of
player 1, yet the join is answered with status 200 and adds player 2, because
the comparison is made on the name cut to 32 code units. -/
theorem join_duplicate_counterexample :
    Reachable defaultEnv [(demoCode, dottedLobby)]
    ∧ Registry.get [(demoCode, dottedLobby)] (.str demoCode) = some dottedLobby
    ∧ (∃ p ∈ dottedLobby.players,
        defaultEnv.toLowerCase p.name = defaultEnv.toLowerCase dottedLower)
    ∧ handleApi defaultEnv [(demoCode, dottedLobby)]
        (.join ⟨.str demoCode, .str dottedLower⟩)
      = some ([(demoCode, dottedJoined)], .joined 2 (lobbySummary dottedJoined)) := by
  refine ⟨?_, by decide, ⟨⟨1, dottedUpper, true⟩, by decide, by decide⟩, by decide⟩
  have h : handleApi defaultEnv [] dottedCreate
      = some ([(demoCode, dottedLobby)], .created demoCode 1 (lobbySummary dottedLobby)) := by
    decide
  exact Reachable.step dottedCreate Reachable.init h

/-- C6, amended: whatever the registry, when the normalized form `cleanName`
of the submitted name has the same lower-case form as the name of a player of
the lobby, the join is answered with status 400 and the registry is left as it
was. -/
theorem join_duplicate_rejected (env : Env) (lobbies : Registry) (code : JSString)
    (lobby : Lobby) (hl : lobbies.get (.str code) = some lobby) (name : JVal)
    (clean : JSString) (hc : cleanName name = some clean)
    (hdup : ∃ p ∈ lobby.players, env.toLowerCase p.name = env.toLowerCase clean) :
    ∃ msg, handleApi env lobbies (.join ⟨.str code, name⟩) = some (lobbies, .error 400 msg) := by
  have hl1 : lobbies.getStr code = some lobby := hl
  have hany : lobby.players.any
      (fun p => decide (env.toLowerCase p.name = env.toLowerCase clean)) = true := by
    simp only [List.any_eq_true, decide_eq_true_eq]
    exact hdup
  simp only [handleApi, apiJoin, hl1, hc, hany, if_true]
  by_cases hst : lobby.started = true
  · exact ⟨"Gra już wystartowała", by simp [hst]⟩
  · by_cases hfull : (lobby.players.length : Int) ≥ lobby.maxPlayers
    · exact ⟨"Lobby jest pełne", by simp [hst, hfull]⟩
    · by_cases he : clean = []
      · exact ⟨"Podaj nazwę gracza", by simp [hst, hfull, he]⟩
      · exact ⟨"Ta nazwa jest już zajęta w tym lobby", by simp [hst, hfull, he]⟩

/-- The concrete game before its start, with room made for a third player:
`' ALA '` is refused. -/
theorem join_duplicate_rejected_witness :
    ∃ msg, handleApi defaultEnv
        [(demoCode, { demoOpenLobby with players := demoPlayers.take 2 })]
        (.join ⟨.str demoCode, .str (utf16 " ALA ")⟩)
      = some ([(demoCode, { demoOpenLobby with players := demoPlayers.take 2 })],
          .error 400 msg) :=
  join_duplicate_rejected defaultEnv
    [(demoCode, { demoOpenLobby with players := demoPlayers.take 2 })] demoCode
    { demoOpenLobby with players := demoPlayers.take 2 } (by decide)
    (.str (utf16 " ALA ")) (utf16 "ALA") (by decide)
    ⟨⟨1, utf16 "Ala", true⟩, by decide, by decide⟩

/-! ## Player ids, the administrator, lobby codes -/

/-- A property of the lobbies that holds of every new lobby and is kept by the
addition of a player and by the start holds of every stored lobby. -/
theorem reachable_lobby_induction (env : Env) (P : JSString → Lobby → Prop)
    (hcreate : ∀ code difficulty maxPlayers name now, name ≠ [] →
      P code (Lobby.mk code difficulty maxPlayers [Player.mk 1 name true] false none none now))
    (hjoin : ∀ k (lobby : Lobby) name, P k lobby → name ≠ [] →
      P k { lobby with
            players := lobby.players ++ [Player.mk (lobby.players.length + 1) name false] })
    (hstart : ∀ k (lobby : Lobby) (p : Player) w, P k lobby →
      P k { lobby with started := true, impostorId := some p.id, word := some w })
    (lobbies : Registry) (hr : Reachable env lobbies) :
    ∀ (k : JSString) (l : Lobby), lobbies.getStr k = some l → P k l := by
  induction hr with
  | init =>
    intro k l h
    simp [Registry.getStr] at h
  | @step s s1 resp req _ hstep ih =>
    intro k l hl
    rcases step_cases env s s1 req resp hstep with h | h | h | h
    · rw [h] at hl
      exact ih k l hl
    · obtain ⟨code, difficulty, maxPlayers, name, now, _, hne, _, _, hs1⟩ := h
      rw [hs1] at hl
      by_cases hk : k = code
      · rw [hk, getStr_set_self] at hl
        simp only [Option.some.injEq] at hl
        rw [← hl, hk]
        exact hcreate code difficulty maxPlayers name now hne
      · rw [getStr_set_ne _ _ _ _ hk] at hl
        exact ih k l hl
    · obtain ⟨code, lobby, name, hget, _, _, hne, _, hs1⟩ := h
      rw [hs1] at hl
      by_cases hk : k = code
      · rw [hk, getStr_set_self] at hl
        simp only [Option.some.injEq] at hl
        rw [← hl, hk]
        exact hjoin code lobby name (ih code lobby hget) hne
      · rw [getStr_set_ne _ _ _ _ hk] at hl
        exact ih k l hl
    · obtain ⟨code, lobby, p, w, hget, _, _, _, _, hs1⟩ := h
      rw [hs1] at hl
      by_cases hk : k = code
      · rw [hk, getStr_set_self] at hl
        simp only [Option.some.injEq] at hl
        rw [← hl, hk]
        exact hstart code lobby p w (ih code lobby hget)
      · rw [getStr_set_ne _ _ _ _ hk] at hl
        exact ih k l hl

/-- C11: in a reachable registry the ids of the players of a lobby, read in
list order, are exactly 1, 2, ..., `players.length`. -/
theorem player_ids_sequential (env : Env) (lobbies : Registry)
    (hr : Reachable env lobbies) (code : JSString) (lobby : Lobby)
    (hl : lobbies.get (.str code) = some lobby) :
    lobby.players.map (fun p => p.id) = List.range' 1 lobby.players.length
    ∧ ∀ (i : Nat) (hi : i < lobby.players.length), (lobby.players[i]).id = i + 1 := by
  have inv := reachable_inv env lobbies hr code lobby hl
  refine ⟨inv.ids, ?_⟩
  intro i hi
  have h1 : (lobby.players.map (fun p => p.id))[i]? = (List.range' 1 lobby.players.length)[i]? := by
    rw [inv.ids]
  rw [List.getElem?_map, List.getElem?_eq_getElem hi, List.getElem?_range' _ _ hi] at h1
  simp only [Option.map_some', Option.some.injEq, Nat.one_mul] at h1
  omega

/-- The concrete game: the ids are 1, 2, 3. -/
theorem player_ids_sequential_witness :
    demoLobby.players.map (fun p => p.id) = List.range' 1 demoLobby.players.length
    ∧ ∀ (i : Nat) (hi : i < demoLobby.players.length), (demoLobby.players[i]).id = i + 1 :=
  player_ids_sequential defaultEnv [(demoCode, demoLobby)] demo_reachable demoCode demoLobby
    (by decide)

/-- C12: in a reachable registry the first player of a lobby has `isAdmin`
true and id 1, no later player has `isAdmin` true, and so exactly one player
is the administrator. -/
theorem single_admin_first (env : Env) (lobbies : Registry)
    (hr : Reachable env lobbies) (code : JSString) (lobby : Lobby)
    (hl : lobbies.get (.str code) = some lobby) :
    ∃ first rest, lobby.players = first :: rest
      ∧ first.isAdmin = true ∧ first.id = 1
      ∧ (∀ p ∈ rest, p.isAdmin = false)
      ∧ lobby.players.countP (fun p => p.isAdmin) = 1 := by
  have key : ∀ (k : JSString) (l : Lobby), lobbies.getStr k = some l →
      ∃ first rest, l.players = first :: rest ∧ first.isAdmin = true ∧ first.id = 1
        ∧ (∀ p ∈ rest, p.isAdmin = false) := by
    apply reachable_lobby_induction env
      (fun _ l => ∃ first rest, l.players = first :: rest ∧ first.isAdmin = true
        ∧ first.id = 1 ∧ (∀ p ∈ rest, p.isAdmin = false))
    · intro code difficulty maxPlayers name now _
      exact ⟨_, [], rfl, rfl, rfl, by simp⟩
    · intro k lobby name ⟨first, rest, hp, ha, hi, hrest⟩ _
      refine ⟨first, rest ++ [Player.mk (lobby.players.length + 1) name false], ?_, ha, hi, ?_⟩
      · simp [hp]
      · intro p hp1
        rcases List.mem_append.mp hp1 with h | h
        · exact hrest p h
        · simp only [List.mem_singleton] at h
          rw [h]
    · intro k lobby p w h
      exact h
    · exact hr
  obtain ⟨first, rest, hp, ha, hi, hrest⟩ := key code lobby hl
  refine ⟨first, rest, hp, ha, hi, hrest, ?_⟩
  have h0 : rest.countP (fun p => p.isAdmin) = 0 := by
    rw [List.countP_eq_zero]
    intro p hp1
    simp [hrest p hp1]
  rw [hp, List.countP_cons, h0, ha]
  rfl

/-- The concrete game: Ala, the first player, is its only administrator. -/
theorem single_admin_first_witness :
    ∃ first rest, demoLobby.players = first :: rest
      ∧ first.isAdmin = true ∧ first.id = 1
      ∧ (∀ p ∈ rest, p.isAdmin = false)
      ∧ demoLobby.players.countP (fun p => p.isAdmin) = 1 :=
  single_admin_first defaultEnv [(demoCode, demoLobby)] demo_reachable demoCode demoLobby
    (by decide)

theorem getStr_none_iff (lobbies : Registry) (k : JSString) :
    lobbies.getStr k = none ↔ k ∉ lobbies.map Prod.fst := by
  induction lobbies with
  | nil => simp [Registry.getStr]
  | cons hd tl ih =>
    obtain ⟨k0, l0⟩ := hd
    by_cases h : k0 = k
    · simp [Registry.getStr, h]
    · have h1 : ¬ k = k0 := fun e => h e.symm
      simp [Registry.getStr, h, h1, ih]

theorem set_of_none (lobbies : Registry) (k : JSString) (v : Lobby)
    (h : lobbies.getStr k = none) : lobbies.set k v = lobbies ++ [(k, v)] := by
  induction lobbies with
  | nil => rfl
  | cons hd tl ih =>
    obtain ⟨k0, l0⟩ := hd
    by_cases h0 : k0 = k
    · simp [Registry.getStr, h0] at h
    · simp only [Registry.getStr, h0, if_false] at h
      simp [Registry.set, h0, ih h]

theorem set_keys_of_some (lobbies : Registry) (k : JSString) (l v : Lobby)
    (h : lobbies.getStr k = some l) :
    (lobbies.set k v).map Prod.fst = lobbies.map Prod.fst := by
  induction lobbies with
  | nil => simp [Registry.getStr] at h
  | cons hd tl ih =>
    obtain ⟨k0, l0⟩ := hd
    by_cases h0 : k0 = k
    · simp [Registry.set, h0]
    · simp only [Registry.getStr, h0, if_false] at h
      simp [Registry.set, h0, ih h]

theorem mem_set (lobbies : Registry) (k : JSString) (v : Lobby) (e : JSString × Lobby)
    (h : e ∈ lobbies.set k v) : e ∈ lobbies ∨ e = (k, v) := by
  induction lobbies with
  | nil =>
    simp only [Registry.set, List.mem_singleton] at h
    exact Or.inr h
  | cons hd tl ih =>
    obtain ⟨k0, l0⟩ := hd
    by_cases h0 : k0 = k
    · simp only [Registry.set, h0, if_true, List.mem_cons] at h
      rcases h with h | h
      · exact Or.inr h
      · exact Or.inl (List.mem_cons_of_mem _ h)
    · simp only [Registry.set, h0, if_false, List.mem_cons] at h
      rcases h with h | h
      · exact Or.inl (by rw [h]; exact List.mem_cons_self _ _)
      · rcases ih h with h1 | h1
        · exact Or.inl (List.mem_cons_of_mem _ h1)
        · exact Or.inr h1

theorem mem_of_getStr (lobbies : Registry) (k : JSString) (l : Lobby)
    (h : lobbies.getStr k = some l) : (k, l) ∈ lobbies := by
  induction lobbies with
  | nil => simp [Registry.getStr] at h
  | cons hd tl ih =>
    obtain ⟨k0, l0⟩ := hd
    by_cases h0 : k0 = k
    · simp only [Registry.getStr, h0, if_true, Option.some.injEq] at h
      rw [h0, h]
      exact List.mem_cons_self _ _
    · simp only [Registry.getStr, h0, if_false] at h
      exact List.mem_cons_of_mem _ (ih h)

theorem getStr_of_mem (lobbies : Registry) (hnd : (lobbies.map Prod.fst).Nodup)
    (k : JSString) (l : Lobby) (h : (k, l) ∈ lobbies) : lobbies.getStr k = some l := by
  induction lobbies with
  | nil => simp at h
  | cons hd tl ih =>
    obtain ⟨k0, l0⟩ := hd
    simp only [List.map_cons, List.nodup_cons] at hnd
    rcases List.mem_cons.mp h with h1 | h1
    · simp only [Prod.mk.injEq] at h1
      simp [Registry.getStr, h1.1, h1.2]
    · have hne : k0 ≠ k := by
        intro e
        apply hnd.1
        rw [e]
        exact List.mem_map_of_mem Prod.fst h1
      simp only [Registry.getStr, hne, if_false]
      exact ih hnd.2 h1

/-- In a reachable registry the keys are pairwise distinct and every entry
holds a lobby whose `code` is its key. -/
theorem reachable_keys (env : Env) (lobbies : Registry) (hr : Reachable env lobbies) :
    (lobbies.map Prod.fst).Nodup ∧ ∀ e ∈ lobbies, e.2.code = e.1 := by
  induction hr with
  | init => simp
  | @step s s1 resp req _ hstep ih =>
    obtain ⟨hnd, hcode⟩ := ih
    rcases step_cases env s s1 req resp hstep with h | h | h | h
    · rw [h]
      exact ⟨hnd, hcode⟩
    · obtain ⟨code, difficulty, maxPlayers, name, now, hnone, _, _, _, hs1⟩ := h
      rw [hs1, set_of_none _ _ _ hnone]
      constructor
      · rw [List.map_append, List.nodup_append]
        refine ⟨hnd, by simp, ?_⟩
        intro a ha hb
        simp only [List.map_cons, List.map_nil, List.mem_singleton] at hb
        rw [hb] at ha
        exact (getStr_none_iff _ _).mp hnone ha
      · intro e he
        rcases List.mem_append.mp he with h1 | h1
        · exact hcode e h1
        · simp only [List.mem_singleton] at h1
          rw [h1]
    · obtain ⟨code, lobby, name, hget, _, _, _, _, hs1⟩ := h
      rw [hs1]
      constructor
      · rw [set_keys_of_some _ _ _ _ hget]
        exact hnd
      · intro e he
        rcases mem_set _ _ _ _ he with h1 | h1
        · exact hcode e h1
        · rw [h1]
          exact hcode (code, lobby) (mem_of_getStr _ _ _ hget)
    · obtain ⟨code, lobby, p, w, hget, _, _, _, _, hs1⟩ := h
      rw [hs1]
      constructor
      · rw [set_keys_of_some _ _ _ _ hget]
        exact hnd
      · intro e he
        rcases mem_set _ _ _ _ he with h1 | h1
        · exact hcode e h1
        · rw [h1]
          exact hcode (code, lobby) (mem_of_getStr _ _ _ hget)

/-- What a create request answered with `created` has done. -/
theorem create_created (env : Env) (lobbies lobbies1 : Registry) (body : CreateBody)
    (draws : List Nat) (now : Nat) (code : JSString) (pid : Nat) (sum : Summary)
    (h : handleApi env lobbies (.create body draws now) = some (lobbies1, .created code pid sum)) :
    ∃ name max, body.adminPassword = .str env.ADMIN_PASSWORD
      ∧ cleanName body.adminName = some name ∧ name ≠ []
      ∧ clampMax body.maxPlayers = some max
      ∧ freshCode lobbies draws = some code ∧ pid = 1
      ∧ lobbies1 = lobbies.set code
          (Lobby.mk code (difficultyValue body.difficulty) max
            [Player.mk 1 name true] false none none now)
      ∧ sum = lobbySummary
          (Lobby.mk code (difficultyValue body.difficulty) max
            [Player.mk 1 name true] false none none now) := by
  simp only [handleApi, apiCreate] at h
  split at h
  · simp at h
  · rename_i hpw
    split at h
    · simp at h
    · rename_i name hname
      split at h
      · simp at h
      · rename_i max hmax
        split at h
        · simp at h
        · rename_i hne
          split at h
          · simp at h
          · rename_i code1 hcode
            simp only [Option.some.injEq, Prod.mk.injEq, Response.created.injEq] at h
            obtain ⟨hs1, hc, hp, hsum⟩ := h
            subst hc
            exact ⟨name, max, by simpa using hpw, hname, hne, hmax, hcode, hp.symm,
              hs1.symm, hsum.symm⟩

/-- C13: in a reachable registry every lobby is stored under the key equal to
its `code`, and no two entries hold the same `code`; a create answered with
`created` used a code that was not a key, appended the new lobby under that
code and left every earlier entry as it was. -/
theorem codes_unique (env : Env) (lobbies : Registry) (hr : Reachable env lobbies) :
    (∀ k l, lobbies.get (.str k) = some l → l.code = k)
    ∧ (lobbies.map (fun e => e.2.code)).Nodup
    ∧ (∀ body draws now lobbies1 code pid sum,
        handleApi env lobbies (.create body draws now)
          = some (lobbies1, .created code pid sum) →
        lobbies.get (.str code) = none
        ∧ (∃ l, l.code = code ∧ lobbies1 = lobbies ++ [(code, l)]
            ∧ lobbies1.get (.str code) = some l)
        ∧ ∀ key l0, lobbies.get key = some l0 → lobbies1.get key = some l0) := by
  obtain ⟨hnd, hcode⟩ := reachable_keys env lobbies hr
  refine ⟨?_, ?_, ?_⟩
  · intro k l hl
    exact hcode (k, l) (mem_of_getStr _ _ _ hl)
  · have hmap : lobbies.map (fun e => e.2.code) = lobbies.map Prod.fst :=
      List.map_congr_left hcode
    rw [hmap]
    exact hnd
  · intro body draws now lobbies1 code pid sum h
    obtain ⟨name, max, _, _, _, _, hfresh, _, hs1, _⟩ :=
      create_created env lobbies lobbies1 body draws now code pid sum h
    have hnone : lobbies.getStr code = none := freshCode_unused _ _ _ hfresh
    refine ⟨hnone, ⟨Lobby.mk code (difficultyValue body.difficulty) max
      [Player.mk 1 name true] false none none now, rfl, ?_, ?_⟩, ?_⟩
    · rw [hs1, set_of_none _ _ _ hnone]
    · rw [hs1]
      exact getStr_set_self _ _ _
    · intro key l0 hl0
      cases key with
      | str k =>
        have hk : k ≠ code := by
          intro e
          have h2 : lobbies.getStr k = some l0 := hl0
          rw [e, hnone] at h2
          exact absurd h2 (by simp)
        rw [hs1]
        exact (getStr_set_ne lobbies code k _ hk).trans hl0
      | _ => simp [Registry.get] at hl0

/-- The concrete game after its start: its code is its key, and the second
lobby, created after a first draw that was taken, is appended under a new
code. -/
theorem codes_unique_witness :
    (∀ k l, Registry.get [(demoCode, demoLobby)] (.str k) = some l → l.code = k)
    ∧ (List.map (fun e => e.2.code) [(demoCode, demoLobby)]).Nodup
    ∧ (∀ body draws now lobbies1 code pid sum,
        handleApi defaultEnv [(demoCode, demoLobby)] (.create body draws now)
          = some (lobbies1, .created code pid sum) →
        Registry.get [(demoCode, demoLobby)] (.str code) = none
        ∧ (∃ l, l.code = code ∧ lobbies1 = [(demoCode, demoLobby)] ++ [(code, l)]
            ∧ lobbies1.get (.str code) = some l)
        ∧ ∀ key l0, Registry.get [(demoCode, demoLobby)] key = some l0 →
            lobbies1.get key = some l0) :=
  codes_unique defaultEnv [(demoCode, demoLobby)] demo_reachable

/-! ## Decimal digits -/

theorem digitsValue_append (a : List Nat) (c : Nat) :
    digitsValue (a ++ [c]) = 10 * digitsValue a + (c - 48) := by
  simp [digitsValue, List.foldl_append]

theorem digitsValue_zeros (m : Nat) (ds : List Nat) :
    digitsValue (List.replicate m 48 ++ ds) = digitsValue ds := by
  have h0 : ∀ k : Nat, List.foldl (fun acc c => 10 * acc + (c - 48)) 0 (List.replicate k 48) = 0 := by
    intro k
    induction k with
    | zero => rfl
    | succ k ih => simp [List.replicate_succ, ih]
  simp only [digitsValue, List.foldl_append, h0]

/-- The digits written by `toDigitsFuel`, given enough fuel: they are decimal
digits, their value is `n`, and there are at most `k` of them when
`n < 10 ^ k`. -/
theorem toDigitsFuel_spec (fuel : Nat) :
    ∀ (n : Nat) (acc : List Nat), n < fuel →
      ∃ ds, toDigitsFuel fuel n acc = ds ++ acc ∧ ds ≠ []
        ∧ (∀ c ∈ ds, isDigit c = true) ∧ digitsValue ds = n
        ∧ ∀ k, 1 ≤ k → n < 10 ^ k → ds.length ≤ k := by
  induction fuel with
  | zero =>
    intro n acc h
    exact absurd h (Nat.not_lt_zero n)
  | succ fuel ih =>
    intro n acc h
    by_cases h0 : n / 10 = 0
    · refine ⟨[48 + n % 10], by simp [toDigitsFuel, h0], by simp, ?_, ?_, ?_⟩
      · intro c hc
        simp only [List.mem_singleton] at hc
        have : n % 10 < 10 := Nat.mod_lt _ (by decide)
        simp only [isDigit, hc, Bool.and_eq_true, decide_eq_true_eq]
        omega
      · simp only [digitsValue, List.foldl_cons, List.foldl_nil]
        omega
      · intro k hk _
        simpa using hk
    · have hlt : n / 10 < fuel := by omega
      obtain ⟨ds, heq, _, hdig, hval, hlen⟩ := ih (n / 10) ((48 + n % 10) :: acc) hlt
      refine ⟨ds ++ [48 + n % 10], ?_, by simp, ?_, ?_, ?_⟩
      · simp only [toDigitsFuel, h0, if_false, heq, List.append_assoc, List.singleton_append]
      · intro c hc
        rcases List.mem_append.mp hc with h1 | h1
        · exact hdig c h1
        · simp only [List.mem_singleton] at h1
          have : n % 10 < 10 := Nat.mod_lt _ (by decide)
          simp only [isDigit, h1, Bool.and_eq_true, decide_eq_true_eq]
          omega
      · rw [digitsValue_append, hval]
        omega
      · intro k hk hn
        have hk2 : 2 ≤ k := by
          by_contra hc
          have hk1 : k = 1 := by omega
          rw [hk1] at hn
          omega
        have hpow : 10 ^ k = 10 ^ (k - 1) * 10 := by
          rw [← Nat.pow_succ]
          congr 1
          omega
        have hdiv : n / 10 < 10 ^ (k - 1) := by
          rw [Nat.div_lt_iff_lt_mul (by decide)]
          omega
        have := hlen (k - 1) (by omega) hdiv
        simp only [List.length_append, List.length_singleton]
        omega

theorem natToString_spec (n : Nat) :
    natToString n ≠ [] ∧ (∀ c ∈ natToString n, isDigit c = true)
      ∧ digitsValue (natToString n) = n
      ∧ ∀ k, 1 ≤ k → n < 10 ^ k → (natToString n).length ≤ k := by
  obtain ⟨ds, heq, hne, hdig, hval, hlen⟩ := toDigitsFuel_spec (n + 1) n [] (Nat.lt_succ_self n)
  have h : natToString n = ds := by simp [natToString, heq]
  rw [h]
  exact ⟨hne, hdig, hval, hlen⟩

/-- C14: for a draw `n` below `10 ^ 8`, `generateCode` returns 8 code units,
each a decimal digit, whose decimal value is `n`; two such draws with the same
code are equal. -/
theorem generateCode_spec (n : Nat) (hn : n < 10 ^ 8) :
    (generateCode n).length = 8
    ∧ (∀ c ∈ generateCode n, isDigit c = true)
    ∧ digitsValue (generateCode n) = n
    ∧ ∀ m, m < 10 ^ 8 → generateCode m = generateCode n → m = n := by
  have key : ∀ m, m < 10 ^ 8 →
      (generateCode m).length = 8 ∧ (∀ c ∈ generateCode m, isDigit c = true)
        ∧ digitsValue (generateCode m) = m := by
    intro m hm
    obtain ⟨_, hdig, hval, hlen⟩ := natToString_spec m
    have hl := hlen 8 (by decide) hm
    simp only [generateCode, randomInt_onto m (10 ^ 8) hm, padStart]
    refine ⟨?_, ?_, ?_⟩
    · simp only [List.length_append, List.length_replicate]
      omega
    · intro c hc
      rcases List.mem_append.mp hc with h1 | h1
      · rw [(List.mem_replicate.mp h1).2]
        decide
      · exact hdig c h1
    · rw [digitsValue_zeros, hval]
  obtain ⟨h1, h2, h3⟩ := key n hn
  refine ⟨h1, h2, h3, ?_⟩
  intro m hm heq
  have h4 := (key m hm).2.2
  rw [heq, h3] at h4
  exact h4.symm

/-- The draw 42 gives `'00000042'`. -/
theorem generateCode_spec_witness :
    (generateCode 42).length = 8
    ∧ (∀ c ∈ generateCode 42, isDigit c = true)
    ∧ digitsValue (generateCode 42) = 42
    ∧ ∀ m, m < 10 ^ 8 → generateCode m = generateCode 42 → m = 42 :=
  generateCode_spec 42 (by decide)

/-! ## Failed requests -/

/-- A request either leaves the registry as it was or is answered with
status 200. -/
theorem step_status (env : Env) (lobbies lobbies1 : Registry) (req : Request)
    (resp : Response) (h : handleApi env lobbies req = some (lobbies1, resp)) :
    lobbies1 = lobbies ∨ resp.status = 200 := by
  cases req with
  | health =>
    simp only [handleApi, Option.some.injEq, Prod.mk.injEq] at h
    exact Or.inl h.1.symm
  | state code =>
    simp only [handleApi, apiState, Option.some.injEq] at h
    left
    split at h <;> · simp only [Prod.mk.injEq] at h; exact h.1.symm
  | role code playerId =>
    simp only [handleApi, apiRole, Option.some.injEq] at h
    left
    split at h
    · simp only [Prod.mk.injEq] at h; exact h.1.symm
    · split at h
      · simp only [Prod.mk.injEq] at h; exact h.1.symm
      · split at h <;> · simp only [Prod.mk.injEq] at h; exact h.1.symm
  | create body draws now =>
    simp only [handleApi, apiCreate] at h
    split at h
    · simp only [Option.some.injEq, Prod.mk.injEq] at h; exact Or.inl h.1.symm
    · split at h
      · simp only [Option.some.injEq, Prod.mk.injEq] at h; exact Or.inl h.1.symm
      · split at h
        · simp only [Option.some.injEq, Prod.mk.injEq] at h; exact Or.inl h.1.symm
        · split at h
          · simp only [Option.some.injEq, Prod.mk.injEq] at h; exact Or.inl h.1.symm
          · split at h
            · exact absurd h (by simp)
            · simp only [Option.some.injEq, Prod.mk.injEq] at h
              right
              rw [← h.2]
              rfl
  | join body =>
    simp only [handleApi, apiJoin, Option.some.injEq] at h
    split at h
    · split at h
      · simp only [Prod.mk.injEq] at h; exact Or.inl h.1.symm
      · split at h
        · simp only [Prod.mk.injEq] at h; exact Or.inl h.1.symm
        · split at h
          · simp only [Prod.mk.injEq] at h; exact Or.inl h.1.symm
          · split at h
            · simp only [Prod.mk.injEq] at h; exact Or.inl h.1.symm
            · split at h
              · simp only [Prod.mk.injEq] at h; exact Or.inl h.1.symm
              · split at h
                · simp only [Prod.mk.injEq] at h; exact Or.inl h.1.symm
                · simp only [Prod.mk.injEq] at h
                  right
                  rw [← h.2]
                  rfl
    · simp only [Prod.mk.injEq] at h; exact Or.inl h.1.symm
  | start body r1 r2 =>
    simp only [handleApi, apiStart, Option.some.injEq] at h
    split at h
    · split at h
      · simp only [Prod.mk.injEq] at h; exact Or.inl h.1.symm
      · rename_i lobby hl
        split at h
        · simp only [Prod.mk.injEq] at h; exact Or.inl h.1.symm
        · split at h
          · simp only [Prod.mk.injEq] at h; exact Or.inl h.1.symm
          · split at h
            · simp only [Prod.mk.injEq] at h; exact Or.inl h.1.symm
            · rename_i hlen
              have hlt : randomInt r1 0 lobby.players.length < lobby.players.length :=
                randomInt_lt _ _ (by omega)
              split at h
              · rename_i hnone
                rw [List.getElem?_eq_getElem hlt] at hnone
                exact absurd hnone (by simp)
              · simp only [Prod.mk.injEq] at h
                right
                rw [← h.2]
                rfl
    · simp only [Prod.mk.injEq] at h; exact Or.inl h.1.symm

/-- C15: a request answered with status 400, 401 or 404, and every state or
role query, leaves the registry exactly as it was. -/
theorem failure_leaves_registry (env : Env) (lobbies lobbies1 : Registry) (req : Request)
    (resp : Response) (h : handleApi env lobbies req = some (lobbies1, resp))
    (hfail : (resp.status = 400 ∨ resp.status = 401 ∨ resp.status = 404)
      ∨ (∃ code, req = .state code) ∨ (∃ code playerId, req = .role code playerId)) :
    lobbies1 = lobbies := by
  rcases hfail with hst | ⟨code, hreq⟩ | ⟨code, playerId, hreq⟩
  · rcases step_status env lobbies lobbies1 req resp h with h1 | h1
    · exact h1
    · rw [h1] at hst
      omega
  · subst hreq
    simp only [handleApi, apiState, Option.some.injEq] at h
    split at h <;> · simp only [Prod.mk.injEq] at h; exact h.1.symm
  · subst hreq
    simp only [handleApi, apiRole, Option.some.injEq] at h
    split at h
    · simp only [Prod.mk.injEq] at h; exact h.1.symm
    · split at h
      · simp only [Prod.mk.injEq] at h; exact h.1.symm
      · split at h <;> · simp only [Prod.mk.injEq] at h; exact h.1.symm

/-- The concrete game before its start: a start with a wrong password is
answered 401 and changes nothing. -/
theorem failure_leaves_registry_witness :
    handleApi defaultEnv [(demoCode, demoOpenLobby)]
        (.start ⟨.str demoCode, .str (utf16 "haslo")⟩ 0 0)
      = some ([(demoCode, demoOpenLobby)], .error 401 "Błędne hasło administratora")
    ∧ [(demoCode, demoOpenLobby)] = [(demoCode, demoOpenLobby)] :=
  ⟨by decide, failure_leaves_registry defaultEnv [(demoCode, demoOpenLobby)] [(demoCode, demoOpenLobby)]
    (.start ⟨.str demoCode, .str (utf16 "haslo")⟩ 0 0)
    (.error 401 "Błędne hasło administratora") (by decide) (Or.inl (Or.inr (Or.inl rfl)))⟩

/-! ## Stored names -/

/-- The writes a request can make, with the origin of every name written: a
new name is a non-empty result of `cleanName`. -/
theorem step_cases_clean (env : Env) (lobbies lobbies1 : Registry) (req : Request)
    (resp : Response) (h : handleApi env lobbies req = some (lobbies1, resp)) :
    lobbies1 = lobbies
    ∨ (∃ code difficulty maxPlayers name now,
        lobbies.getStr code = none ∧ name ≠ [] ∧ (∃ v, cleanName v = some name) ∧
        lobbies1 = lobbies.set code
          (Lobby.mk code difficulty maxPlayers [Player.mk 1 name true] false none none now))
    ∨ (∃ code lobby name,
        lobbies.getStr code = some lobby ∧ lobby.started = false ∧
        name ≠ [] ∧ (∃ v, cleanName v = some name) ∧
        lobbies1 = lobbies.set code
          { lobby with
            players := lobby.players ++ [Player.mk (lobby.players.length + 1) name false] })
    ∨ (∃ code lobby p w,
        lobbies.getStr code = some lobby ∧ lobby.started = false ∧
        3 ≤ lobby.players.length ∧ p ∈ lobby.players ∧ w ∈ words ∧
        lobbies1 = lobbies.set code
          { lobby with started := true, impostorId := some p.id, word := some w }) := by
  cases req with
  | health =>
    simp only [handleApi, Option.some.injEq, Prod.mk.injEq] at h
    exact Or.inl h.1.symm
  | state code =>
    simp only [handleApi, apiState, Option.some.injEq] at h
    left
    split at h <;> · simp only [Prod.mk.injEq] at h; exact h.1.symm
  | role code playerId =>
    simp only [handleApi, apiRole, Option.some.injEq] at h
    left
    split at h
    · simp only [Prod.mk.injEq] at h; exact h.1.symm
    · split at h
      · simp only [Prod.mk.injEq] at h; exact h.1.symm
      · split at h <;> · simp only [Prod.mk.injEq] at h; exact h.1.symm
  | create body draws now =>
    simp only [handleApi, apiCreate] at h
    split at h
    · simp only [Option.some.injEq, Prod.mk.injEq] at h; exact Or.inl h.1.symm
    · split at h
      · simp only [Option.some.injEq, Prod.mk.injEq] at h; exact Or.inl h.1.symm
      · rename_i name hname
        split at h
        · simp only [Option.some.injEq, Prod.mk.injEq] at h; exact Or.inl h.1.symm
        · rename_i max hmax
          split at h
          · simp only [Option.some.injEq, Prod.mk.injEq] at h; exact Or.inl h.1.symm
          · rename_i hne
            split at h
            · exact absurd h (by simp)
            · rename_i code hcode
              simp only [Option.some.injEq, Prod.mk.injEq] at h
              right; left
              exact ⟨code, _, _, name, now, freshCode_unused _ _ _ hcode, hne,
                ⟨body.adminName, hname⟩, h.1.symm⟩
  | join body =>
    simp only [handleApi, apiJoin, Option.some.injEq] at h
    split at h
    · rename_i code hc
      split at h
      · simp only [Prod.mk.injEq] at h; exact Or.inl h.1.symm
      · rename_i lobby hl
        split at h
        · simp only [Prod.mk.injEq] at h; exact Or.inl h.1.symm
        · rename_i hst
          split at h
          · simp only [Prod.mk.injEq] at h; exact Or.inl h.1.symm
          · rename_i hfull
            split at h
            · simp only [Prod.mk.injEq] at h; exact Or.inl h.1.symm
            · rename_i name hname
              split at h
              · simp only [Prod.mk.injEq] at h; exact Or.inl h.1.symm
              · rename_i hne
                split at h
                · simp only [Prod.mk.injEq] at h; exact Or.inl h.1.symm
                · rename_i hdup
                  simp only [Prod.mk.injEq] at h
                  right; right; left
                  exact ⟨code, lobby, name, hl, by simpa using hst, hne,
                    ⟨body.name, hname⟩, h.1.symm⟩
    · simp only [Prod.mk.injEq] at h; exact Or.inl h.1.symm
  | start body r1 r2 =>
    simp only [handleApi, apiStart, Option.some.injEq] at h
    split at h
    · rename_i code hc
      split at h
      · simp only [Prod.mk.injEq] at h; exact Or.inl h.1.symm
      · rename_i lobby hl
        split at h
        · simp only [Prod.mk.injEq] at h; exact Or.inl h.1.symm
        · split at h
          · simp only [Prod.mk.injEq] at h; exact Or.inl h.1.symm
          · rename_i hst
            split at h
            · simp only [Prod.mk.injEq] at h; exact Or.inl h.1.symm
            · rename_i hlen
              have hlt : randomInt r1 0 lobby.players.length < lobby.players.length :=
                randomInt_lt _ _ (by omega)
              have hw : randomInt r2 0 words.length < words.length :=
                randomInt_lt _ _ (by simp [words_length])
              split at h
              · rename_i hnone
                rw [List.getElem?_eq_getElem hlt] at hnone
                exact absurd hnone (by simp)
              · rename_i p hp
                rw [List.getElem?_eq_getElem hlt] at hp
                simp only [Option.some.injEq] at hp
                simp only [Prod.mk.injEq] at h
                right; right; right
                refine ⟨code, lobby, p, words[randomInt r2 0 words.length], hl,
                  by simpa using hst, by omega, ?_, List.getElem_mem _, ?_⟩
                · rw [← hp]; exact List.getElem_mem _
                · rw [← h.1, List.getElem?_eq_getElem hw]
    · simp only [Prod.mk.injEq] at h; exact Or.inl h.1.symm

/-- C16, the failing input: a create whose `adminName` is `'a'`, 40 spaces,
`'b'` stores the name `'a'` followed by 31 spaces, whose last code unit is
white space: `cleanName` trims before it cuts to 32 code units. -/
theorem stored_name_trailing_space :
    cleanName (.str spacedName) = some (97 :: List.replicate 31 32)
    ∧ handleApi defaultEnv [] spacedCreate
        = some ([(demoCode, spacedLobby)], .created demoCode 1 (lobbySummary spacedLobby))
    ∧ Reachable defaultEnv [(demoCode, spacedLobby)]
    ∧ (spacedLobby.players.map (fun p => (p.name.getLast?).map isWhiteSpace)) = [some true] := by
  have h : handleApi defaultEnv [] spacedCreate
      = some ([(demoCode, spacedLobby)], .created demoCode 1 (lobbySummary spacedLobby)) := by
    decide
  exact ⟨by decide, h, Reachable.step spacedCreate Reachable.init h, by decide⟩

/-! ## The player limit -/

theorem takeWhile_all (p : Nat → Bool) (l : List Nat) (h : ∀ c ∈ l, p c = true) :
    l.takeWhile p = l := by
  induction l with
  | nil => rfl
  | cons c t ih =>
    have hc : p c = true := h c (List.mem_cons_self _ _)
    simp only [List.takeWhile_cons, hc, if_true]
    rw [ih (fun d hd => h d (List.mem_cons_of_mem _ hd))]

/-- Reading back an integer printed in decimal gives that integer. -/
theorem parseIntText_int (n : Int) : parseIntText (intToString n) = some n := by
  obtain ⟨hne, hdig, hval, _⟩ := natToString_spec n.natAbs
  have htw : (natToString n.natAbs).takeWhile isDigit = natToString n.natAbs :=
    takeWhile_all _ _ hdig
  by_cases hneg : n < 0
  · have hs : intToString n = 45 :: natToString n.natAbs := by
      simp [intToString, hneg]
    have hd : (45 :: natToString n.natAbs).dropWhile isWhiteSpace
        = 45 :: natToString n.natAbs := by
      rw [List.dropWhile_cons]
      simp [isWhiteSpace]
    simp only [parseIntText, hs, hd, htw, hne, if_false, hval, Option.some.injEq]
    omega
  · have hs : intToString n = natToString n.natAbs := by
      simp [intToString, hneg]
    cases hnt : natToString n.natAbs with
    | nil => exact absurd hnt hne
    | cons c t =>
      have hc : isDigit c = true := hdig c (by rw [hnt]; exact List.mem_cons_self _ _)
      have hc2 : 48 ≤ c ∧ c ≤ 57 := by
        simpa [isDigit] using hc
      have hws : isWhiteSpace c = false := by
        simp only [isWhiteSpace, Bool.or_eq_false_iff, decide_eq_false_iff_not,
          Bool.and_eq_false_imp, decide_eq_true_eq]
        omega
      have hd : (c :: t).dropWhile isWhiteSpace = c :: t := by
        rw [List.dropWhile_cons]
        simp [hws]
      have h45 : c ≠ 45 := by omega
      have h43 : c ≠ 43 := by omega
      rw [hnt] at htw hval
      have hbody : (match c :: t with
          | 45 :: u => u
          | 43 :: u => u
          | _ => c :: t) = c :: t := by
        split
        · rename_i u heq
          simp only [List.cons.injEq] at heq
          exact absurd heq.1 h45
        · rename_i u heq
          simp only [List.cons.injEq] at heq
          exact absurd heq.1 h43
        · rfl
      simp only [parseIntText, hs, hnt, hd, hbody, htw]
      simp only [List.cons_ne_nil, if_false]
      split
      · rename_i u heq
        simp only [List.cons.injEq] at heq
        exact absurd heq.1 h45
      · simp only [hval, Option.some.injEq]
        omega

/-- The call `parseInt` reads back an integer printed in decimal. -/
theorem parseInt_num (n : Int) : parseInt (.num n) = some (some n) := by
  simp only [parseInt, JVal.toJSString, parseIntText_int]

theorem clampMax_of_parseInt (v : JVal) (k : Int) (h : parseInt v = some (some k)) :
    clampMax v = some (min (max k 3) 12) := by
  simp only [clampMax, parseIntOr3, h]
  by_cases h0 : k = 0
  · simp [h0]
  · simp [h0]

theorem clampMax_of_nan (v : JVal) (h : parseInt v = some none) : clampMax v = some 3 := by
  simp [clampMax, parseIntOr3, h]

/-- C17, as stated, fails: `'7abc'`, which is not a number, is stored as 7 and
not as 3, because `parseInt` reads the digits a text starts with; and the
integer `10 ^ 21`, which `ToString` prints as `'1e+21'`, is stored as 3 and not
as 12. -/
theorem maxPlayers_counterexample :
    handleApi defaultEnv [] (createWithMax (.str (utf16 "7abc")))
      = some ([(demoCode, lobbyWithMax 7)], .created demoCode 1 (lobbySummary (lobbyWithMax 7)))
    ∧ handleApi defaultEnv [] (createWithMax (.other (utf16 "1e+21")))
      = some ([(demoCode, lobbyWithMax 3)], .created demoCode 1 (lobbySummary (lobbyWithMax 3)))
    ∧ min (max ((10 : Int) ^ 21) 3) 12 = 12 := by
  refine ⟨by decide, by decide, by decide⟩

/-- C17, amended: the `maxPlayers` stored by a create is an integer from 3 to
12; it is `min(max(k, 3), 12)` when `parseInt` reads the integer `k` from the
submitted value, which for an integer `n` of magnitude below `10 ^ 21` is `n`
itself; and it is 3 when `parseInt` reads no integer, as for an absent value,
`null` and the booleans. -/
theorem create_maxPlayers (env : Env) (lobbies lobbies1 : Registry) (body : CreateBody)
    (draws : List Nat) (now : Nat) (code : JSString) (pid : Nat) (sum : Summary)
    (h : handleApi env lobbies (.create body draws now) = some (lobbies1, .created code pid sum)) :
    ∃ lobby, lobbies1.get (.str code) = some lobby
      ∧ 3 ≤ lobby.maxPlayers ∧ lobby.maxPlayers ≤ 12
      ∧ (∀ k, parseInt body.maxPlayers = some (some k) →
          lobby.maxPlayers = min (max k 3) 12)
      ∧ (∀ n : Int, n.natAbs < 10 ^ 21 → body.maxPlayers = .num n →
          lobby.maxPlayers = min (max n 3) 12)
      ∧ (parseInt body.maxPlayers = some none → lobby.maxPlayers = 3)
      ∧ (body.maxPlayers = .undefined ∨ body.maxPlayers = .null
          ∨ (∃ b, body.maxPlayers = .bool b) → lobby.maxPlayers = 3) := by
  obtain ⟨name, max, _, _, _, hmax, _, _, hs1, _⟩ :=
    create_created env lobbies lobbies1 body draws now code pid sum h
  have hval : ∀ x : Int, clampMax body.maxPlayers = some x → max = x := by
    intro x hx
    rw [hmax] at hx
    exact Option.some.inj hx
  refine ⟨Lobby.mk code (difficultyValue body.difficulty) max [Player.mk 1 name true]
      false none none now,
    by rw [hs1]; exact getStr_set_self _ _ _, (clampMax_bounds _ _ hmax).1,
    (clampMax_bounds _ _ hmax).2, ?_, ?_, ?_, ?_⟩
  · intro k hk
    exact hval _ (clampMax_of_parseInt _ k hk)
  · intro n _ hn
    exact hval _ (clampMax_of_parseInt _ n (by rw [hn]; exact parseInt_num n))
  · intro hnan
    exact hval _ (clampMax_of_nan _ hnan)
  · intro hv
    apply hval
    apply clampMax_of_nan
    rcases hv with hv | hv | ⟨b, hv⟩
    · rw [hv]; decide
    · rw [hv]; decide
    · rw [hv]; cases b <;> decide

/-- Ala asks for 5 players and the lobby stores 5. -/
theorem create_maxPlayers_witness :
    ∃ lobby, Registry.get [(demoCode, lobbyWithMax 5)] (.str demoCode) = some lobby
      ∧ 3 ≤ lobby.maxPlayers ∧ lobby.maxPlayers ≤ 12
      ∧ (∀ k, parseInt (JVal.num 5) = some (some k) →
          lobby.maxPlayers = min (max k 3) 12)
      ∧ (∀ n : Int, n.natAbs < 10 ^ 21 → JVal.num 5 = .num n →
          lobby.maxPlayers = min (max n 3) 12)
      ∧ (parseInt (JVal.num 5) = some none → lobby.maxPlayers = 3)
      ∧ (JVal.num 5 = .undefined ∨ JVal.num 5 = .null
          ∨ (∃ b, JVal.num 5 = .bool b) → lobby.maxPlayers = 3) :=
  create_maxPlayers defaultEnv [] [(demoCode, lobbyWithMax 5)]
    ⟨.str (utf16 "admin"), .str (utf16 "Ala"), .num 5, .undefined⟩ [42] 1000 demoCode 1
    (lobbySummary (lobbyWithMax 5)) (by decide)

/-! ## Role queries that fail -/

/-- C18, as stated, fails: on the concrete game before its start, a role query
with the id 99, which no player has, is answered with status 400 and not
404. -/
theorem role_unknown_player_counterexample :
    Reachable defaultEnv [(demoCode, demoOpenLobby)]
    ∧ Registry.get [(demoCode, demoOpenLobby)] (.str demoCode) = some demoOpenLobby
    ∧ (∀ p ∈ demoOpenLobby.players, some (p.id : Int) ≠ some 99)
    ∧ handleApi defaultEnv [(demoCode, demoOpenLobby)] (.role (.str demoCode) (some 99))
      = some ([(demoCode, demoOpenLobby)], .error 400 "Gra jeszcze nie wystartowała") :=
  ⟨reachable_run defaultEnv demoSetup [] _ Reachable.init demo_setup_run,
    by decide, by decide, by decide⟩

/-- C18, amended: a role query is answered with status 404 when its code is
the key of no lobby, and when its code is the key of a started lobby none of
whose players has the `playerId`; when its code is the key of a lobby that is
not started it is answered with status 400, whatever the `playerId`. The
registry is left as it was. -/
theorem role_query_failures (env : Env) (lobbies : Registry) (code : JVal)
    (playerId : Option Int) :
    (lobbies.get code = none →
      ∃ msg, handleApi env lobbies (.role code playerId) = some (lobbies, .error 404 msg))
    ∧ (∀ lobby, lobbies.get code = some lobby → lobby.started = true →
        (∀ p ∈ lobby.players, some (p.id : Int) ≠ playerId) →
        ∃ msg, handleApi env lobbies (.role code playerId) = some (lobbies, .error 404 msg))
    ∧ (∀ lobby, lobbies.get code = some lobby → lobby.started = false →
        ∃ msg, handleApi env lobbies (.role code playerId) = some (lobbies, .error 400 msg)) := by
  refine ⟨?_, ?_, ?_⟩
  · intro hnone
    exact ⟨"Lobby nie istnieje", by simp [handleApi, apiRole, hnone]⟩
  · intro lobby hl hst hno
    have hfind : lobby.players.find? (fun p => decide (some (p.id : Int) = playerId)) = none := by
      rw [List.find?_eq_none]
      intro p hp
      simpa using hno p hp
    exact ⟨"Nie znaleziono gracza", by simp only [handleApi, apiRole, hl, hst, hfind]; rfl⟩
  · intro lobby hl hst
    exact ⟨"Gra jeszcze nie wystartowała", by simp [handleApi, apiRole, hl, hst]⟩

/-! ## Creation -/

/-- The code loop ends as soon as one of the draws gives a code that is not a
key. -/
theorem freshCode_of_unused (lobbies : Registry) (draws : List Nat)
    (h : ∃ r ∈ draws, lobbies.has (generateCode r) = false) :
    ∃ code, freshCode lobbies draws = some code := by
  induction draws with
  | nil =>
    obtain ⟨r, hr, _⟩ := h
    simp at hr
  | cons d ds ih =>
    by_cases hd : lobbies.has (generateCode d) = true
    · obtain ⟨r, hr, hfree⟩ := h
      rcases List.mem_cons.mp hr with h1 | h1
      · rw [h1, hd] at hfree
        exact absurd hfree (by simp)
      · obtain ⟨code, hc⟩ := ih ⟨r, h1, hfree⟩
        exact ⟨code, by simp [freshCode, hd, hc]⟩
    · exact ⟨generateCode d, by simp [freshCode, hd]⟩

/-- When `ToString` does not throw on `maxPlayers`, the clamped limit is
computed. -/
theorem clampMax_of_text (v : JVal) (text : JSString) (h : v.toJSString = some text) :
    ∃ m, clampMax v = some m := by
  have hp : parseInt v = some (parseIntText text) := by
    simp only [parseInt, h]
  cases hr : parseIntText text with
  | none => exact ⟨3, clampMax_of_nan v (by rw [hp, hr])⟩
  | some k => exact ⟨_, clampMax_of_parseInt v k (by rw [hp, hr])⟩

/-- C19, as stated, fails: with the administrator password and the name
`'Ala'`, a `maxPlayers` on which `ToString` throws (such as `{"toString": 1}`)
makes `parseInt` raise `TypeError`, and the create is answered with status 400
and stores nothing; and on the registry of the concrete game, with the single
draw 42 whose code is already a key, the code loop has not ended and there is
no response. -/
theorem create_success_counterexample :
    JVal.str (utf16 "admin") = .str defaultEnv.ADMIN_PASSWORD
    ∧ cleanName (.str (utf16 "Ala")) = some (utf16 "Ala") ∧ utf16 "Ala" ≠ []
    ∧ handleApi defaultEnv [] (createWithMax .unprintable)
      = some ([], .error 400 "Nie udało się utworzyć lobby")
    ∧ Reachable defaultEnv [(demoCode, demoLobby)]
    ∧ handleApi defaultEnv [(demoCode, demoLobby)] (createWithMax (.num 5)) = none :=
  ⟨by decide, by decide, by decide, by decide, demo_reachable, by decide⟩

/-- C19, amended: a create request with the administrator password, an admin
name that is not empty after `cleanName` and a `maxPlayers` on which `ToString`
does not throw, one of whose draws gives an unused code, is answered with
`playerId` 1 and the summary of the new lobby; the lobby stored under the
returned code has the single player
`{ id: 1, name: cleanName(adminName), isAdmin: true }`, is not started, has
`impostorId` and `word` null, and its difficulty is the submitted one when that
is `'latwy'`, `'sredni'` or `'trudny'` and `'latwy'` otherwise. -/
theorem create_success (env : Env) (lobbies : Registry) (body : CreateBody)
    (draws : List Nat) (now : Nat) (name : JSString)
    (hpw : body.adminPassword = .str env.ADMIN_PASSWORD)
    (hname : cleanName body.adminName = some name) (hne : name ≠ [])
    (hmax : ∃ text, body.maxPlayers.toJSString = some text)
    (hdraw : ∃ r ∈ draws, lobbies.has (generateCode r) = false) :
    ∃ code lobbies1 lobby,
      handleApi env lobbies (.create body draws now)
        = some (lobbies1, .created code 1 (lobbySummary lobby))
      ∧ lobbies1.get (.str code) = some lobby
      ∧ lobby.code = code
      ∧ lobby.players = [Player.mk 1 name true]
      ∧ lobby.started = false ∧ lobby.impostorId = none ∧ lobby.word = none
      ∧ lobby.createdAt = now
      ∧ (∀ d ∈ difficultyOptions, body.difficulty = .str d → lobby.difficulty = d)
      ∧ ((∀ d ∈ difficultyOptions, body.difficulty ≠ .str d) →
          lobby.difficulty = utf16 "latwy") := by
  obtain ⟨code, hcode⟩ := freshCode_of_unused lobbies draws hdraw
  obtain ⟨text, htext⟩ := hmax
  obtain ⟨m, hm⟩ := clampMax_of_text body.maxPlayers text htext
  refine ⟨code,
    lobbies.set code (Lobby.mk code (difficultyValue body.difficulty) m
      [Player.mk 1 name true] false none none now),
    Lobby.mk code (difficultyValue body.difficulty) m
      [Player.mk 1 name true] false none none now,
    ?_, ?_, rfl, rfl, rfl, rfl, rfl, rfl, ?_, ?_⟩
  · simp only [handleApi, apiCreate, hpw, hname, hm, hne, hcode, ne_eq, not_true_eq_false,
      if_false]
  · exact getStr_set_self _ _ _
  · intro d hd hbody
    simp only [difficultyValue, hbody, hd, if_true]
  · intro hno
    cases hd : body.difficulty with
    | str s0 =>
      by_cases hs : s0 ∈ difficultyOptions
      · exact absurd hd (hno s0 hs)
      · simp only [difficultyValue, hd, hs, if_false]
    | _ => simp only [difficultyValue, hd]

/-- Ala creates a lobby of difficulty `'sredni'`. -/
theorem create_success_witness :
    ∃ code lobbies1 lobby,
      handleApi defaultEnv []
          (.create ⟨.str (utf16 "admin"), .str (utf16 "Ala"), .num 5, .str (utf16 "sredni")⟩
            [42] 1000)
        = some (lobbies1, .created code 1 (lobbySummary lobby))
      ∧ lobbies1.get (.str code) = some lobby
      ∧ lobby.code = code
      ∧ lobby.players = [Player.mk 1 (utf16 "Ala") true]
      ∧ lobby.started = false ∧ lobby.impostorId = none ∧ lobby.word = none
      ∧ lobby.createdAt = 1000
      ∧ (∀ d ∈ difficultyOptions, JVal.str (utf16 "sredni") = .str d → lobby.difficulty = d)
      ∧ ((∀ d ∈ difficultyOptions, JVal.str (utf16 "sredni") ≠ .str d) →
          lobby.difficulty = utf16 "latwy") :=
  create_success defaultEnv []
    ⟨.str (utf16 "admin"), .str (utf16 "Ala"), .num 5, .str (utf16 "sredni")⟩ [42] 1000
    (utf16 "Ala") (by decide) (by decide) (by decide) ⟨utf16 "5", by decide⟩
    ⟨42, by decide, by decide⟩

/-! ## What does hold of stored names -/

/-- A result of `cleanName` has at most 32 code units and does not begin with
white space. -/
theorem cleanName_shape (v : JVal) (name : JSString) (h : cleanName v = some name) :
    name.length ≤ 32 ∧ ∀ c, name.head? = some c → isWhiteSpace c = false := by
  have key : ∀ s : JSString, ((trim s).take 32).length ≤ 32
      ∧ ∀ c, ((trim s).take 32).head? = some c → isWhiteSpace c = false := by
    intro s
    refine ⟨List.length_take_le _ _, ?_⟩
    intro c hc
    have hpre : (trim s).take 32 <+: s.dropWhile isWhiteSpace := by
      have h1 : trim s <+: s.dropWhile isWhiteSpace := by
        unfold trim
        have h2 := List.dropWhile_suffix (l := (s.dropWhile isWhiteSpace).reverse) isWhiteSpace
        rw [← List.reverse_prefix, List.reverse_reverse] at h2
        exact h2
      exact (List.take_prefix _ _).trans h1
    obtain ⟨t, ht⟩ := hpre
    cases hn : (trim s).take 32 with
    | nil => rw [hn] at hc; simp at hc
    | cons d ds =>
      rw [hn] at hc ht
      simp only [List.head?_cons, Option.some.injEq] at hc
      have hhead := List.head?_dropWhile_not isWhiteSpace s
      rw [← ht] at hhead
      simp only [List.cons_append, List.head?_cons] at hhead
      rw [← hc]
      exact hhead
  unfold cleanName at h
  split at h
  · rename_i s0 _
    simp only [Option.some.injEq] at h
    rw [← h]
    exact key s0
  · exact absurd h (by simp)

/-- In a reachable registry every stored name has from 1 to 32 code units and
does not begin with white space. -/
theorem stored_names_shape (env : Env) (lobbies : Registry) (hr : Reachable env lobbies) :
    ∀ (k : JSString) (l : Lobby), lobbies.getStr k = some l → ∀ p ∈ l.players,
      1 ≤ p.name.length ∧ p.name.length ≤ 32
        ∧ ∀ c, p.name.head? = some c → isWhiteSpace c = false := by
  have one : ∀ name : JSString, name ≠ [] → (∃ v, cleanName v = some name) →
      1 ≤ name.length ∧ name.length ≤ 32
        ∧ ∀ c, name.head? = some c → isWhiteSpace c = false := by
    intro name hne ⟨v, hv⟩
    obtain ⟨h1, h2⟩ := cleanName_shape v name hv
    refine ⟨?_, h1, h2⟩
    cases name with
    | nil => exact absurd rfl hne
    | cons c t => simp
  induction hr with
  | init =>
    intro k l h
    simp [Registry.getStr] at h
  | @step s s1 resp req _ hstep ih =>
    intro k l hl p hp
    rcases step_cases_clean env s s1 req resp hstep with h | h | h | h
    · rw [h] at hl
      exact ih k l hl p hp
    · obtain ⟨code, difficulty, maxPlayers, name, now, _, hne, hclean, hs1⟩ := h
      rw [hs1] at hl
      by_cases hk : k = code
      · rw [hk, getStr_set_self] at hl
        simp only [Option.some.injEq] at hl
        rw [← hl] at hp
        simp only [List.mem_singleton] at hp
        rw [hp]
        exact one name hne hclean
      · rw [getStr_set_ne _ _ _ _ hk] at hl
        exact ih k l hl p hp
    · obtain ⟨code, lobby, name, hget, _, hne, hclean, hs1⟩ := h
      rw [hs1] at hl
      by_cases hk : k = code
      · rw [hk, getStr_set_self] at hl
        simp only [Option.some.injEq] at hl
        rw [← hl] at hp
        rcases List.mem_append.mp hp with h1 | h1
        · exact ih code lobby hget p h1
        · simp only [List.mem_singleton] at h1
          rw [h1]
          exact one name hne hclean
      · rw [getStr_set_ne _ _ _ _ hk] at hl
        exact ih k l hl p hp
    · obtain ⟨code, lobby, q, w, hget, _, _, _, _, hs1⟩ := h
      rw [hs1] at hl
      by_cases hk : k = code
      · rw [hk, getStr_set_self] at hl
        simp only [Option.some.injEq] at hl
        rw [← hl] at hp
        exact ih code lobby hget p hp
      · rw [getStr_set_ne _ _ _ _ hk] at hl
        exact ih k l hl p hp

/-- A create or join whose name is empty after `cleanName` is answered with
status 400 (or, for a create, 401 when the password is wrong; for a join, 404
when the lobby is unknown), and the registry is left as it was. -/
theorem empty_name_rejected (env : Env) (lobbies : Registry) :
    (∀ (body : CreateBody) draws now, cleanName body.adminName = some [] →
      ∃ status msg, (status = 400 ∨ status = 401)
        ∧ handleApi env lobbies (.create body draws now) = some (lobbies, .error status msg))
    ∧ (∀ body : JoinBody, cleanName body.name = some [] →
      ∃ status msg, (status = 400 ∨ status = 404)
        ∧ handleApi env lobbies (.join body) = some (lobbies, .error status msg)) := by
  constructor
  · intro body draws now hname
    by_cases hpw : body.adminPassword = JVal.str env.ADMIN_PASSWORD
    · cases hm : clampMax body.maxPlayers with
      | none =>
        exact ⟨400, "Nie udało się utworzyć lobby", Or.inl rfl,
          by simp [handleApi, apiCreate, hpw, hname, hm]⟩
      | some m =>
        exact ⟨400, "Podaj nazwę admina", Or.inl rfl,
          by simp [handleApi, apiCreate, hpw, hname, hm]⟩
    · exact ⟨401, "Błędne hasło administratora", Or.inr rfl,
        by simp [handleApi, apiCreate, hpw]⟩
  · intro body hname
    obtain ⟨code, name⟩ := body
    simp only at hname
    cases code with
    | str k =>
      cases hk : lobbies.getStr k with
      | none => exact ⟨404, "Lobby nie istnieje", Or.inr rfl, by simp [handleApi, apiJoin, hk]⟩
      | some lobby =>
        by_cases hst : lobby.started = true
        · exact ⟨400, "Gra już wystartowała", Or.inl rfl,
            by simp [handleApi, apiJoin, hk, hst]⟩
        · by_cases hfull : (lobby.players.length : Int) ≥ lobby.maxPlayers
          · exact ⟨400, "Lobby jest pełne", Or.inl rfl,
              by simp [handleApi, apiJoin, hk, hst, hfull]⟩
          · exact ⟨400, "Podaj nazwę gracza", Or.inl rfl,
              by simp [handleApi, apiJoin, hk, hst, hfull, hname]⟩
    | _ => exact ⟨404, "Lobby nie istnieje", Or.inr rfl, by simp [handleApi, apiJoin]⟩

end GraImpostor
